import Mathlib

/-!
A verification development for the PaintScope memory-bounded PDF page
rendering and caching layer (pdf_processor.py) and the session memory
manager (memory_utils.py).

Python methods are shallowly embedded as Lean functions.  The mutable
PDFProcessor object becomes an explicit ProcState threaded through each
call.  The PyMuPDF / PIL pipeline is abstracted into a PdfEnv record:
rendering is a pure function of the pdf bytes, the resolved page index
and the quality settings (spec section 8, Determinism), and any
exception raised between opening the document and encoding the image
appears as a `none` result.  Python dicts are modelled as
insertion-ordered association lists, matching CPython semantics
(`next(iter(d))` is the oldest inserted key, assignment of a fresh key
appends at the end).
-/

/-- One entry of the `quality_settings` dict in
`PDFProcessor.convert_page_to_image` (pdf_processor.py lines 88-92). -/
structure QSettings where
  dpi : Nat
  jpeg_quality : Nat
  deriving DecidableEq, Repr

/-- `settings = quality_settings.get(quality, quality_settings['medium'])`
(pdf_processor.py lines 88-94): the three recognized tiers, any other
string falling back to the medium settings. -/
def qualitySettings (quality : String) : QSettings :=
  if quality = "low" then ⟨72, 70⟩
  else if quality = "medium" then ⟨150, 85⟩
  else if quality = "high" then ⟨200, 95⟩
  else ⟨150, 85⟩

/-- Abstraction of the external world of `PDFProcessor`: the md5 hash of
the pdf bytes (`get_pdf_hash`), the page count of the parsed document
(`len(pdf_document)`), whether `fitz.open` succeeds on these bytes, and
the whole render-resize-flatten-encode pipeline (pdf_processor.py lines
107-134) as one pure function from (bytes, resolved page index,
settings) to an optional base64 string; `none` is an exception somewhere
in that pipeline. -/
structure PdfEnv where
  hash : List Nat → String
  pageCount : List Nat → Nat
  openOk : List Nat → Bool
  render : List Nat → Nat → QSettings → Option String

/-- The mutable state of a `PDFProcessor` instance: the insertion-ordered
`page_cache` dict (oldest entry first) plus the renderer invocation
counter demanded by the spec ("verifiable by call-count instrumentation",
spec section 4.2). -/
structure ProcState where
  page_cache : List (String × String)
  renderCount : Nat
  deriving DecidableEq, Repr

/-- A freshly constructed `PDFProcessor` (`__init__`, pdf_processor.py
lines 27-30): empty cache. -/
def freshProc : ProcState := ⟨[], 0⟩

/-- `MAX_PAGES_IN_MEMORY = 15` (pdf_processor.py line 24). -/
def MAX_PAGES_IN_MEMORY : Nat := 15

/-- `MAX_BATCH_SIZE = 5` (pdf_processor.py line 25). -/
def MAX_BATCH_SIZE : Nat := 5

/-- Lookup in a Python dict modelled as an insertion-ordered association
list (`cache_key in d` / `d[cache_key]`). -/
def dictLookup {κ : Type} [DecidableEq κ] (k : κ) : List (κ × String) → Option String
  | [] => none
  | kv :: rest => if kv.1 = k then some kv.2 else dictLookup k rest

/-- Assignment `d[k] = v` on a Python dict: updates the value in place if
the key exists, otherwise appends the new pair at the end. -/
def dictInsert {κ : Type} [DecidableEq κ] (d : List (κ × String)) (k : κ) (v : String) :
    List (κ × String) :=
  if (dictLookup k d).isSome then
    d.map (fun kv => if kv.1 = k then (k, v) else kv)
  else d ++ [(k, v)]

/-- `cache_key = f"{pdf_hash}_{page_num}_{quality}"` (pdf_processor.py
line 81). -/
def cacheKey (pdf_hash : String) (page_num : Int) (quality : String) : String :=
  pdf_hash ++ "_" ++ toString page_num ++ "_" ++ quality

/-- The cache write of `convert_page_to_image` (pdf_processor.py lines
141-148): append while below `MAX_PAGES_IN_MEMORY`; once full, pop the
oldest-inserted entry (`next(iter(...))` is the head of the dict) and
append the new one.  Only reached with a key not already present. -/
def cacheInsert (c : List (String × String)) (k v : String) : List (String × String) :=
  if c.length < MAX_PAGES_IN_MEMORY then c ++ [(k, v)]
  else
    match c with
    | [] => [(k, v)]
    | _ :: t => t ++ [(k, v)]

/-- `pdf_document[page_num]` on a fitz document with `page_count` pages:
indices in `[0, page_count)` load that page, negative indices in
`[-page_count, 0)` count from the end, anything else raises. -/
def resolvePage (page_count : Nat) (page_num : Int) : Option Nat :=
  if 0 ≤ page_num ∧ page_num < (page_count : Int) then some page_num.toNat
  else if -(page_count : Int) ≤ page_num ∧ page_num < 0 then
    some ((page_count : Int) + page_num).toNat
  else none

/-- `PDFProcessor.convert_page_to_image` (pdf_processor.py lines 67-154).
Returns the optional base64 image and the successor processor state.
Control flow mirrors the source: cache probe; `fitz.open` (an exception
is caught by the `except` clause); the `page_num >= len(pdf_document)`
guard returning `None` after closing; page load and render pipeline
(exceptions caught, returning `None`); then the bounded cache write and
the successful return. -/
def convert_page_to_image (env : PdfEnv) (st : ProcState) (pdf_bytes : List Nat)
    (page_num : Int) (quality : String) : Option String × ProcState :=
  let cache_key := cacheKey (env.hash pdf_bytes) page_num quality
  match dictLookup cache_key st.page_cache with
  | some cached => (some cached, st)
  | none =>
    if env.openOk pdf_bytes = false then (none, st)
    else if (env.pageCount pdf_bytes : Int) ≤ page_num then (none, st)
    else
      match resolvePage (env.pageCount pdf_bytes) page_num with
      | none => (none, st)
      | some idx =>
        match env.render pdf_bytes idx (qualitySettings quality) with
        | none => (none, { st with renderCount := st.renderCount + 1 })
        | some img_base64 =>
          (some img_base64,
            { st with
              renderCount := st.renderCount + 1,
              page_cache := cacheInsert st.page_cache cache_key img_base64 })

/-- `PDFProcessor.clear_cache` (pdf_processor.py lines 202-205). -/
def clear_cache (st : ProcState) : ProcState := { st with page_cache := [] }

/-- The body of the inner loop of `convert_pages_batch` (pdf_processor.py
lines 173-176): convert one page; `if img_base64:` stores the result in
the `results` dict only when it is truthy (not `None` and not the empty
string). -/
def batchStep (env : PdfEnv) (pdf_bytes : List Nat) (quality : String)
    (acc : List (Int × String) × ProcState) (page_num : Int) :
    List (Int × String) × ProcState :=
  match convert_page_to_image env acc.2 pdf_bytes page_num quality with
  | (some img, st2) =>
    if img = "" then (acc.1, st2) else (dictInsert acc.1 page_num img, st2)
  | (none, st2) => (acc.1, st2)

/-- `range(0, len(page_numbers), self.MAX_BATCH_SIZE)` slicing of
`convert_pages_batch` (pdf_processor.py lines 171-172): the request list
cut into consecutive chunks of at most `MAX_BATCH_SIZE` pages. -/
def batchChunks : List Int → List (List Int)
  | [] => []
  | a :: rest =>
    (a :: rest.take (MAX_BATCH_SIZE - 1)) :: batchChunks (rest.drop (MAX_BATCH_SIZE - 1))
termination_by l => l.length
decreasing_by simp [MAX_BATCH_SIZE]; omega

/-- `PDFProcessor.convert_pages_batch` (pdf_processor.py lines 156-177):
process the requested pages chunk by chunk, accumulating the
page-number-to-image dict. -/
def convert_pages_batch (env : PdfEnv) (st : ProcState) (pdf_bytes : List Nat)
    (page_numbers : List Int) (quality : String) : List (Int × String) × ProcState :=
  (batchChunks page_numbers).foldl
    (fun acc batch => batch.foldl (batchStep env pdf_bytes quality) acc) ([], st)

/-- `PDFProcessor.get_page_for_analysis` (pdf_processor.py lines
183-185): a medium-quality conversion. -/
def get_page_for_analysis (env : PdfEnv) (st : ProcState) (pdf_bytes : List Nat)
    (page_num : Int) : Option String × ProcState :=
  convert_page_to_image env st pdf_bytes page_num "medium"

/-- A `role`-tagged chat message; `role` is `none` when the dict has no
role key (`m.get('role')` then yields Python `None`). -/
structure Message where
  role : Option String
  content : String
  deriving DecidableEq, Repr

/-- The Streamlit session state fields touched by the embedded code:
`messages` (`none` when the key is absent), presence flags for the other
removable keys of `cleanup_session`, and the `pdf_processor` object. -/
structure SessionState where
  messages : Option (List Message)
  pdf_images : Bool
  current_pdf_id : Bool
  current_conversation_id : Bool
  temp_data : Bool
  pdf_processor : Option ProcState
  deriving DecidableEq, Repr

/-- `SessionStateManager.PRESERVE_KEYS` (memory_utils.py lines 22-25). -/
def PRESERVE_KEYS : List String :=
  ["authenticated", "user_id", "username", "email", "full_name", "company",
   "page", "pdf_processor"]

/-- Whether `cleanup_session` removes a given session key (memory_utils.py
lines 65-79): skipped if `preserve_data` and the key is in
`PRESERVE_KEYS`, otherwise removed exactly when it is in the hard-coded
removal list. -/
def cleanupRemoves (preserve_data : Bool) (key : String) : Bool :=
  if preserve_data ∧ key ∈ PRESERVE_KEYS then false
  else decide (key ∈ ["pdf_images", "messages", "current_pdf_id",
                      "current_conversation_id", "temp_data"])

/-- `SessionStateManager.cleanup_session` (memory_utils.py lines 57-82),
restricted to the modelled keys. -/
def cleanup_session (preserve_data : Bool) (s : SessionState) : SessionState :=
  { s with
    pdf_images := s.pdf_images && !(cleanupRemoves preserve_data "pdf_images"),
    messages := if cleanupRemoves preserve_data "messages" then none else s.messages,
    current_pdf_id := s.current_pdf_id && !(cleanupRemoves preserve_data "current_pdf_id"),
    current_conversation_id :=
      s.current_conversation_id && !(cleanupRemoves preserve_data "current_conversation_id"),
    temp_data := s.temp_data && !(cleanupRemoves preserve_data "temp_data"),
    pdf_processor :=
      if cleanupRemoves preserve_data "pdf_processor" then none else s.pdf_processor }

/-- Python tail slice `l[-n:]` for a nonnegative `n` (note `l[-0:]` is the
whole list). -/
def pyTailSlice {α : Type} (n : Nat) (l : List α) : List α :=
  if n = 0 then l else l.drop (l.length - n)

/-- `SessionStateManager.optimize_messages` (memory_utils.py lines
84-96): when the transcript exceeds `max_messages`, keep every message
whose role is `system` (in order) followed by the last `max_messages`
non-system messages. -/
def optimize_messages (max_messages : Nat) (s : SessionState) : SessionState :=
  match s.messages with
  | none => s
  | some messages =>
    if messages.length > max_messages then
      let system_msg := messages.filter (fun m => m.role == some "system")
      let other_msgs := messages.filter (fun m => m.role != some "system")
      { s with messages := some (system_msg ++ pyTailSlice max_messages other_msgs) }
    else s

/-- `SessionStateManager.auto_cleanup` (memory_utils.py lines 131-154),
parameterized by the status string that `check_memory_usage` classified
the session into (the byte-size sampling itself is host-process state
outside the embedding).  Returns the new session state and the function
result. -/
def auto_cleanup (status : String) (s : SessionState) : SessionState × Bool :=
  if status = "critical" then
    let s1 := cleanup_session true s
    let s2 := optimize_messages 10 s1
    let s3 :=
      match s2.pdf_processor with
      | some proc => { s2 with pdf_processor := some (clear_cache proc) }
      | none => s2
    (s3, true)
  else if status = "warning" then
    (optimize_messages 15 s, false)
  else (s, false)

/-- `StreamlitPDFManager.process_pdf_upload` result dict (pdf_processor.py
lines 243-247): the info dict (page count and pdf hash; metadata is not
modelled), the initial window of page images, and the total page count. -/
structure UploadResult where
  info_page_count : Nat
  pdf_hash : String
  initial_pages : List (Nat × String)
  total_pages : Nat
  deriving DecidableEq, Repr

/-- `StreamlitPDFManager.cleanup_previous` (pdf_processor.py lines
253-263): delete `st.session_state.pdf_images` and clear the processor
cache. -/
def cleanup_previous (s : SessionState) (proc : ProcState) : SessionState × ProcState :=
  ({ s with pdf_images := false }, clear_cache proc)

/-- One iteration of the `for i in range(initial_pages)` loop of
`process_pdf_upload` (pdf_processor.py lines 238-241): render page `i`
at analysis quality and keep a truthy result in the `page_images`
dict. -/
def initialStep (env : PdfEnv) (pdf_bytes : List Nat)
    (acc : List (Nat × String) × ProcState) (i : Nat) :
    List (Nat × String) × ProcState :=
  match get_page_for_analysis env acc.2 pdf_bytes (Int.ofNat i) with
  | (some img, st2) =>
    if img = "" then (acc.1, st2) else (dictInsert acc.1 i img, st2)
  | (none, st2) => (acc.1, st2)

/-- The whole `for i in range(initial_pages)` loop of
`process_pdf_upload` (pdf_processor.py lines 236-241), starting from an
empty `page_images` dict. -/
def initialPagesLoop (env : PdfEnv) (pdf_bytes : List Nat) (n : Nat) (proc : ProcState) :
    List (Nat × String) × ProcState :=
  (List.range n).foldl (initialStep env pdf_bytes) ([], proc)

/-- `StreamlitPDFManager.process_pdf_upload` (pdf_processor.py lines
217-247): clear the previous document's data, read the pdf info
(`process_pdf_info` re-opens the document, so a malformed pdf raises out
of the call, modelled as a `none` result after the cleanup), then render
the initial window of `min(max_initial_pages, page_count)` pages. -/
def process_pdf_upload (env : PdfEnv) (s : SessionState) (proc : ProcState)
    (pdf_bytes : List Nat) (max_initial_pages : Nat) :
    Option UploadResult × SessionState × ProcState :=
  let cleaned := cleanup_previous s proc
  if env.openOk pdf_bytes = false then (none, cleaned.1, cleaned.2)
  else
    let page_count := env.pageCount pdf_bytes
    let loopOut := initialPagesLoop env pdf_bytes (min max_initial_pages page_count) cleaned.2
    (some { info_page_count := page_count, pdf_hash := env.hash pdf_bytes,
            initial_pages := loopOut.1, total_pages := page_count },
     cleaned.1, loopOut.2)

/-- The fate of the native `fitz` document handle in one
`convert_page_to_image` call (spec sections 4.1 and 5): never opened (a
cache hit, or `fitz.open` itself raised), closed before the call
returns, or left open when the call returns (the `except` clause at
pdf_processor.py lines 152-154 returns without a `close`). -/
inductive HandleFate where
  | notOpened
  | closedBeforeReturn
  | leaked
  deriving DecidableEq, Repr

/-- The handle bookkeeping of `convert_page_to_image`, path by path:
`pdf_document.close()` is executed only on the out-of-range early return
(line 101) and on the successful path (line 137); an exception raised
after `fitz.open` (page load, render, decode) jumps to the `except`
clause, which returns `None` without closing the document. -/
def convert_page_handle_fate (env : PdfEnv) (st : ProcState) (pdf_bytes : List Nat)
    (page_num : Int) (quality : String) : HandleFate :=
  let cache_key := cacheKey (env.hash pdf_bytes) page_num quality
  match dictLookup cache_key st.page_cache with
  | some _ => .notOpened
  | none =>
    if env.openOk pdf_bytes = false then .notOpened
    else if (env.pageCount pdf_bytes : Int) ≤ page_num then .closedBeforeReturn
    else
      match resolvePage (env.pageCount pdf_bytes) page_num with
      | none => .leaked
      | some idx =>
        match env.render pdf_bytes idx (qualitySettings quality) with
        | none => .leaked
        | some _ => .closedBeforeReturn

/-! ### Association-list dictionary lemmas -/

theorem dictLookup_append_none {κ : Type} [DecidableEq κ] {k : κ}
    {l1 l2 : List (κ × String)} (h : dictLookup k l1 = none) :
    dictLookup k (l1 ++ l2) = dictLookup k l2 := by
  induction l1 with
  | nil => rfl
  | cons kv rest ih =>
    simp only [dictLookup] at h ⊢
    split at h
    · exact absurd h (by simp)
    · rename_i hne
      simp only [hne, if_false]
      exact ih h

theorem dictLookup_append_some {κ : Type} [DecidableEq κ] {k : κ} {v : String}
    {l1 l2 : List (κ × String)} (h : dictLookup k l1 = some v) :
    dictLookup k (l1 ++ l2) = some v := by
  induction l1 with
  | nil => simp [dictLookup] at h
  | cons kv rest ih =>
    simp only [dictLookup] at h
    rw [List.cons_append, dictLookup]
    split at h <;> rename_i hc <;> simp only [hc, if_true, if_false]
    · exact h
    · exact ih h

theorem dictLookup_eq_some_mem {κ : Type} [DecidableEq κ] {k : κ} {v : String}
    {l : List (κ × String)} (h : dictLookup k l = some v) : (k, v) ∈ l := by
  induction l with
  | nil => simp [dictLookup] at h
  | cons kv rest ih =>
    simp only [dictLookup] at h
    split at h
    · rename_i heq
      have hkv : kv = (k, v) := by
        obtain ⟨a, b⟩ := kv
        simp_all
      rw [hkv]
      exact List.mem_cons_self _ _
    · exact List.mem_cons_of_mem _ (ih h)

theorem dictLookup_isSome_iff {κ : Type} [DecidableEq κ] {k : κ}
    {l : List (κ × String)} :
    (dictLookup k l).isSome ↔ k ∈ l.map Prod.fst := by
  induction l with
  | nil => simp [dictLookup]
  | cons kv rest ih =>
    simp only [dictLookup, List.map_cons, List.mem_cons]
    split
    · rename_i heq
      simp [heq]
    · rename_i hne
      rw [ih]
      constructor
      · exact fun h => Or.inr h
      · rintro (h | h)
        · exact absurd h.symm hne
        · exact h

theorem dictLookup_tail_none {k : String} {l : List (String × String)}
    (h : dictLookup k l = none) : dictLookup k l.tail = none := by
  cases l with
  | nil => rfl
  | cons kv rest =>
    simp only [dictLookup] at h
    split at h
    · exact absurd h (by simp)
    · simpa using h

theorem dictLookup_map_update {κ : Type} [DecidableEq κ]
    {d : List (κ × String)} {k : κ} (v : String)
    (hs : (dictLookup k d).isSome) :
    dictLookup k (d.map fun kv => if kv.1 = k then (k, v) else kv) = some v := by
  induction d with
  | nil => simp [dictLookup] at hs
  | cons kv rest ih =>
    by_cases hk : kv.1 = k
    · simp [dictLookup, List.map_cons, hk]
    · have hs2 : (dictLookup k rest).isSome := by
        simp only [dictLookup, hk, if_false] at hs
        exact hs
      simp only [List.map_cons, hk, if_false, dictLookup]
      exact ih hs2

theorem dictLookup_map_update_other {κ : Type} [DecidableEq κ]
    {d : List (κ × String)} {k : κ} (v : String) {j : κ} (hne : j ≠ k) :
    dictLookup j (d.map fun kv => if kv.1 = k then (k, v) else kv) = dictLookup j d := by
  induction d with
  | nil => rfl
  | cons kv rest ih =>
    simp only [List.map_cons]
    by_cases hk : kv.1 = k
    · simp only [dictLookup, hk, if_true]
      have h1 : ¬ ((k, v).1 = j) := by simpa using Ne.symm hne
      have h2 : ¬ (kv.1 = j) := by rw [hk]; simpa using Ne.symm hne
      simp only [h1, h2, if_false]
      exact ih
    · simp only [dictLookup, hk, if_false]
      split
      · rfl
      · exact ih

theorem dictLookup_dictInsert_self {κ : Type} [DecidableEq κ]
    (d : List (κ × String)) (k : κ) (v : String) :
    dictLookup k (dictInsert d k v) = some v := by
  unfold dictInsert
  split
  · exact dictLookup_map_update v (by assumption)
  · rename_i hs
    have hn : dictLookup k d = none := by
      cases h : dictLookup k d
      · rfl
      · rw [h] at hs
        exact absurd (by simp) hs
    rw [dictLookup_append_none hn]
    simp [dictLookup]

theorem dictLookup_dictInsert_other {κ : Type} [DecidableEq κ]
    {d : List (κ × String)} {k : κ} {v : String} {j : κ} (hne : j ≠ k) :
    dictLookup j (dictInsert d k v) = dictLookup j d := by
  unfold dictInsert
  split
  · exact dictLookup_map_update_other v hne
  · cases h : dictLookup j d with
    | none =>
      rw [dictLookup_append_none h]
      simp [dictLookup, Ne.symm hne]
    | some w => exact dictLookup_append_some h

theorem mem_dictInsert {κ : Type} [DecidableEq κ]
    {d : List (κ × String)} {k : κ} {v : String} {kv : κ × String}
    (h : kv ∈ dictInsert d k v) : kv ∈ d ∨ kv = (k, v) := by
  unfold dictInsert at h
  split at h
  · rcases List.mem_map.mp h with ⟨kv0, hm, heq⟩
    by_cases hk : kv0.1 = k
    · simp only [hk, if_true] at heq
      exact Or.inr heq.symm
    · simp only [hk, if_false] at heq
      exact Or.inl (heq ▸ hm)
  · rcases List.mem_append.mp h with h2 | h2
    · exact Or.inl h2
    · right
      simpa using h2

/-! ### Cache write lemmas -/

theorem cacheInsert_length_le {c : List (String × String)} {k v : String}
    (h : c.length ≤ MAX_PAGES_IN_MEMORY) :
    (cacheInsert c k v).length ≤ MAX_PAGES_IN_MEMORY := by
  unfold cacheInsert
  split
  · rename_i hlt
    simp only [List.length_append, List.length_cons, List.length_nil]
    omega
  · cases c with
    | nil => simp [MAX_PAGES_IN_MEMORY]
    | cons kv0 t =>
      simp only [List.length_append, List.length_cons, List.length_nil] at h ⊢
      omega

theorem cacheInsert_length_le_succ {c : List (String × String)} {k v : String} :
    (cacheInsert c k v).length ≤ c.length + 1 := by
  unfold cacheInsert
  split
  · simp
  · cases c with
    | nil => simp
    | cons kv0 t => simp

theorem mem_cacheInsert {c : List (String × String)} {k v : String} {kv : String × String}
    (h : kv ∈ cacheInsert c k v) : kv ∈ c ∨ kv = (k, v) := by
  unfold cacheInsert at h
  split at h
  · rcases List.mem_append.mp h with h2 | h2
    · exact Or.inl h2
    · right
      simpa using h2
  · cases c with
    | nil =>
      right
      simpa using h
    | cons kv0 t =>
      rcases List.mem_append.mp h with h2 | h2
      · exact Or.inl (List.mem_cons_of_mem _ h2)
      · right
        simpa using h2

theorem dictLookup_cacheInsert_self {c : List (String × String)} {k v : String}
    (h : dictLookup k c = none) :
    dictLookup k (cacheInsert c k v) = some v := by
  unfold cacheInsert
  split
  · rw [dictLookup_append_none h]
    simp [dictLookup]
  · cases c with
    | nil => simp [dictLookup]
    | cons kv0 t =>
      have ht : dictLookup k t = none := by simpa using dictLookup_tail_none h
      rw [dictLookup_append_none ht]
      simp [dictLookup]

theorem dictLookup_cacheInsert_other {c : List (String × String)} {k k2 v : String}
    (hne : k ≠ k2) (h : dictLookup k c = none) :
    dictLookup k (cacheInsert c k2 v) = none := by
  unfold cacheInsert
  split
  · rw [dictLookup_append_none h]
    simp [dictLookup, Ne.symm hne]
  · cases c with
    | nil => simp [dictLookup, Ne.symm hne]
    | cons kv0 t =>
      have ht : dictLookup k t = none := by simpa using dictLookup_tail_none h
      rw [dictLookup_append_none ht]
      simp [dictLookup, Ne.symm hne]

theorem dictLookup_cacheInsert_append {c : List (String × String)} {k v : String}
    (hlen : c.length < MAX_PAGES_IN_MEMORY) {j w : String}
    (h : dictLookup j c = some w) :
    dictLookup j (cacheInsert c k v) = some w := by
  unfold cacheInsert
  simp only [hlen, if_true]
  exact dictLookup_append_some h

/-! ### Path lemmas for `convert_page_to_image` -/

theorem convert_hit {env : PdfEnv} {st : ProcState} {pdf_bytes : List Nat}
    {page_num : Int} {quality : String} {v : String}
    (h : dictLookup (cacheKey (env.hash pdf_bytes) page_num quality) st.page_cache = some v) :
    convert_page_to_image env st pdf_bytes page_num quality = (some v, st) := by
  unfold convert_page_to_image
  simp [h]

theorem convert_miss_open_fail {env : PdfEnv} {st : ProcState} {pdf_bytes : List Nat}
    {page_num : Int} {quality : String}
    (hmiss : dictLookup (cacheKey (env.hash pdf_bytes) page_num quality) st.page_cache = none)
    (hopen : env.openOk pdf_bytes = false) :
    convert_page_to_image env st pdf_bytes page_num quality = (none, st) := by
  unfold convert_page_to_image
  simp [hmiss, hopen]

theorem convert_miss_out_of_range {env : PdfEnv} {st : ProcState} {pdf_bytes : List Nat}
    {page_num : Int} {quality : String}
    (hmiss : dictLookup (cacheKey (env.hash pdf_bytes) page_num quality) st.page_cache = none)
    (hopen : env.openOk pdf_bytes = true)
    (hge : (env.pageCount pdf_bytes : Int) ≤ page_num) :
    convert_page_to_image env st pdf_bytes page_num quality = (none, st) := by
  unfold convert_page_to_image
  simp [hmiss, hopen, hge]

theorem convert_miss_resolve_fail {env : PdfEnv} {st : ProcState} {pdf_bytes : List Nat}
    {page_num : Int} {quality : String}
    (hmiss : dictLookup (cacheKey (env.hash pdf_bytes) page_num quality) st.page_cache = none)
    (hopen : env.openOk pdf_bytes = true)
    (hlt : page_num < (env.pageCount pdf_bytes : Int))
    (hres : resolvePage (env.pageCount pdf_bytes) page_num = none) :
    convert_page_to_image env st pdf_bytes page_num quality = (none, st) := by
  unfold convert_page_to_image
  simp [hmiss, hopen, not_le.mpr hlt, hres]

theorem convert_miss_render_fail {env : PdfEnv} {st : ProcState} {pdf_bytes : List Nat}
    {page_num : Int} {quality : String} {idx : Nat}
    (hmiss : dictLookup (cacheKey (env.hash pdf_bytes) page_num quality) st.page_cache = none)
    (hopen : env.openOk pdf_bytes = true)
    (hlt : page_num < (env.pageCount pdf_bytes : Int))
    (hres : resolvePage (env.pageCount pdf_bytes) page_num = some idx)
    (hrender : env.render pdf_bytes idx (qualitySettings quality) = none) :
    convert_page_to_image env st pdf_bytes page_num quality =
      (none, { st with renderCount := st.renderCount + 1 }) := by
  unfold convert_page_to_image
  simp [hmiss, hopen, not_le.mpr hlt, hres, hrender]

theorem convert_miss_render_some {env : PdfEnv} {st : ProcState} {pdf_bytes : List Nat}
    {page_num : Int} {quality : String} {idx : Nat} {img : String}
    (hmiss : dictLookup (cacheKey (env.hash pdf_bytes) page_num quality) st.page_cache = none)
    (hopen : env.openOk pdf_bytes = true)
    (hlt : page_num < (env.pageCount pdf_bytes : Int))
    (hres : resolvePage (env.pageCount pdf_bytes) page_num = some idx)
    (hrender : env.render pdf_bytes idx (qualitySettings quality) = some img) :
    convert_page_to_image env st pdf_bytes page_num quality =
      (some img,
       { st with
         renderCount := st.renderCount + 1,
         page_cache :=
           cacheInsert st.page_cache (cacheKey (env.hash pdf_bytes) page_num quality) img }) := by
  unfold convert_page_to_image
  simp [hmiss, hopen, not_le.mpr hlt, hres, hrender]

/-- The raw quality strings are embedded verbatim in the cache key, so
keys for the same document and page but quality strings of different
lengths are distinct. -/
theorem cacheKey_ne_of_quality_length {h : String} {p : Int} {q1 q2 : String}
    (hlen : q1.length ≠ q2.length) : cacheKey h p q1 ≠ cacheKey h p q2 := by
  intro he
  have hl := congrArg String.length he
  simp only [cacheKey, String.length_append] at hl
  omega

/-- C7: with neither tier key cached, calling `convert_page_to_image`
with the unrecognized quality tier "ultra" produces the same image
output as the identical call with tier "medium": the unrecognized tier
falls back to the medium DPI and compression settings, and every other
step of the call is independent of the tier string. -/
theorem unrecognized_quality_falls_back_to_medium (env : PdfEnv) (st : ProcState)
    (pdf_bytes : List Nat) (page_num : Int)
    (h1 : dictLookup (cacheKey (env.hash pdf_bytes) page_num "ultra") st.page_cache = none)
    (h2 : dictLookup (cacheKey (env.hash pdf_bytes) page_num "medium") st.page_cache = none) :
    (convert_page_to_image env st pdf_bytes page_num "ultra").1 =
      (convert_page_to_image env st pdf_bytes page_num "medium").1 := by
  by_cases hopen : env.openOk pdf_bytes = true
  · by_cases hge : (env.pageCount pdf_bytes : Int) ≤ page_num
    · rw [convert_miss_out_of_range h1 hopen hge, convert_miss_out_of_range h2 hopen hge]
    · have hlt := not_le.mp hge
      cases hres : resolvePage (env.pageCount pdf_bytes) page_num with
      | none =>
        rw [convert_miss_resolve_fail h1 hopen hlt hres,
            convert_miss_resolve_fail h2 hopen hlt hres]
      | some idx =>
        cases hrender : env.render pdf_bytes idx (qualitySettings "medium") with
        | none =>
          rw [convert_miss_render_fail h1 hopen hlt hres hrender,
              convert_miss_render_fail h2 hopen hlt hres hrender]
        | some img =>
          rw [convert_miss_render_some h1 hopen hlt hres hrender,
              convert_miss_render_some h2 hopen hlt hres hrender]
  · have hopen2 : env.openOk pdf_bytes = false := by
      cases h : env.openOk pdf_bytes
      · rfl
      · exact absurd h hopen
    rw [convert_miss_open_fail h1 hopen2, convert_miss_open_fail h2 hopen2]

/-- Environment used by the concrete witnesses: a two-page document
`[1]` hashed to "aaaa" (any other byte string: three pages, hash
"bbbb"), rendering always succeeding with an image string that records
the page index and DPI. -/
def envW : PdfEnv :=
  { hash := fun pdf_bytes => if pdf_bytes = [1] then "aaaa" else "bbbb",
    pageCount := fun pdf_bytes => if pdf_bytes = [1] then 2 else 3,
    openOk := fun _ => true,
    render := fun _ idx s => some ("img" ++ toString idx ++ "at" ++ toString s.dpi) }

/-- Witness for C7 at a concrete input: both calls return the page-0
medium-DPI image. -/
theorem unrecognized_quality_falls_back_to_medium_witness :
    (convert_page_to_image envW freshProc [1] 0 "ultra").1 =
      (convert_page_to_image envW freshProc [1] 0 "medium").1 :=
  unrecognized_quality_falls_back_to_medium envW freshProc [1] 0 rfl rfl

/-- C2: if a `convert_page_to_image` call returns an image, then an
immediate second call with the same `(pdf_bytes, page_num, quality)`
returns the same bytes and leaves the processor state - including the
renderer invocation counter - unchanged: the second call is a pure
cache hit and does not re-invoke the rendering path. -/
theorem convert_second_call_hits_cache (env : PdfEnv) (st st1 : ProcState)
    (pdf_bytes : List Nat) (page_num : Int) (quality : String) (img : String)
    (h1 : convert_page_to_image env st pdf_bytes page_num quality = (some img, st1)) :
    convert_page_to_image env st1 pdf_bytes page_num quality = (some img, st1) := by
  cases hc : dictLookup (cacheKey (env.hash pdf_bytes) page_num quality) st.page_cache with
  | some v =>
    rw [convert_hit hc] at h1
    injection h1 with ha hb
    injection ha with ha2
    subst hb
    subst ha2
    exact convert_hit hc
  | none =>
    by_cases hopen : env.openOk pdf_bytes = true
    · by_cases hge : (env.pageCount pdf_bytes : Int) ≤ page_num
      · rw [convert_miss_out_of_range hc hopen hge] at h1
        injection h1 with ha hb
        exact absurd ha (by simp)
      · have hlt := not_le.mp hge
        cases hres : resolvePage (env.pageCount pdf_bytes) page_num with
        | none =>
          rw [convert_miss_resolve_fail hc hopen hlt hres] at h1
          injection h1 with ha hb
          exact absurd ha (by simp)
        | some idx =>
          cases hrender : env.render pdf_bytes idx (qualitySettings quality) with
          | none =>
            rw [convert_miss_render_fail hc hopen hlt hres hrender] at h1
            injection h1 with ha hb
            exact absurd ha (by simp)
          | some img2 =>
            rw [convert_miss_render_some hc hopen hlt hres hrender] at h1
            injection h1 with ha hb
            injection ha with ha2
            subst ha2
            have hlook :
                dictLookup (cacheKey (env.hash pdf_bytes) page_num quality) st1.page_cache =
                  some img2 := by
              rw [← hb]
              exact dictLookup_cacheInsert_self hc
            exact convert_hit hlook
    · have hopen2 : env.openOk pdf_bytes = false := by
        cases h : env.openOk pdf_bytes
        · rfl
        · exact absurd h hopen
      rw [convert_miss_open_fail hc hopen2] at h1
      injection h1 with ha hb
      exact absurd ha (by simp)

/-- Witness for C2: after rendering page 0 of the witness document, the
second identical call returns the cached image and the same state. -/
theorem convert_second_call_hits_cache_witness :
    convert_page_to_image envW
        ⟨[(cacheKey "aaaa" 0 "medium", "img0at150")], 1⟩ [1] 0 "medium" =
      (some "img0at150", ⟨[(cacheKey "aaaa" 0 "medium", "img0at150")], 1⟩) :=
  convert_second_call_hits_cache envW freshProc
    ⟨[(cacheKey "aaaa" 0 "medium", "img0at150")], 1⟩ [1] 0 "medium" "img0at150" (by decide)

/-- C9: a negative page index `p` with `|p|` at most the page count is
not rejected by the out-of-range guard (which only rejects
`page_num >= page count`); the document lookup resolves it to the page
`page_count + p` counted from the end, the renderer is invoked exactly
once for that index, and its output is returned. -/
theorem negative_page_index_renders_from_end (env : PdfEnv) (st : ProcState)
    (pdf_bytes : List Nat) (page_num : Int) (quality : String)
    (hneg : page_num < 0)
    (hbound : -(env.pageCount pdf_bytes : Int) ≤ page_num)
    (hmiss : dictLookup (cacheKey (env.hash pdf_bytes) page_num quality) st.page_cache = none)
    (hopen : env.openOk pdf_bytes = true) :
    (convert_page_to_image env st pdf_bytes page_num quality).1 =
      env.render pdf_bytes ((env.pageCount pdf_bytes : Int) + page_num).toNat
        (qualitySettings quality)
    ∧ (convert_page_to_image env st pdf_bytes page_num quality).2.renderCount =
        st.renderCount + 1 := by
  have hlt : page_num < (env.pageCount pdf_bytes : Int) := by omega
  have hres : resolvePage (env.pageCount pdf_bytes) page_num =
      some ((env.pageCount pdf_bytes : Int) + page_num).toNat := by
    unfold resolvePage
    rw [if_neg (by omega), if_pos ⟨hbound, hneg⟩]
  cases hrender : env.render pdf_bytes ((env.pageCount pdf_bytes : Int) + page_num).toNat
      (qualitySettings quality) with
  | none =>
    rw [convert_miss_render_fail hmiss hopen hlt hres hrender]
    exact ⟨rfl, rfl⟩
  | some img =>
    rw [convert_miss_render_some hmiss hopen hlt hres hrender]
    exact ⟨rfl, rfl⟩

/-- Witness for C9: page -1 of the two-page witness document renders
page index 1, the last page. -/
theorem negative_page_index_renders_from_end_witness :
    (convert_page_to_image envW freshProc [1] (-1) "medium").1 =
      envW.render [1] ((envW.pageCount [1] : Int) + (-1)).toNat (qualitySettings "medium")
    ∧ (convert_page_to_image envW freshProc [1] (-1) "medium").2.renderCount =
        freshProc.renderCount + 1 :=
  negative_page_index_renders_from_end envW freshProc [1] (-1) "medium"
    (by decide) (by decide) rfl rfl

/-- C10: the cache key embeds the raw quality string, not the resolved
tier.  From a fresh processor, requesting the unrecognized tier "ultra"
and then tier "medium" for the same document and page invokes the
renderer once per call (count 2), returns byte-identical images, and
leaves two separate cache entries under the two distinct keys. -/
theorem raw_quality_string_creates_two_cache_entries (env : PdfEnv) (pdf_bytes : List Nat)
    (page_num : Int) (img : String)
    (hopen : env.openOk pdf_bytes = true)
    (h0 : 0 ≤ page_num) (hlt : page_num < (env.pageCount pdf_bytes : Int))
    (hrender : env.render pdf_bytes page_num.toNat (qualitySettings "medium") = some img) :
    (convert_page_to_image env freshProc pdf_bytes page_num "ultra").1 = some img ∧
    (convert_page_to_image env (convert_page_to_image env freshProc pdf_bytes page_num "ultra").2
        pdf_bytes page_num "medium").1 = some img ∧
    (convert_page_to_image env (convert_page_to_image env freshProc pdf_bytes page_num "ultra").2
        pdf_bytes page_num "medium").2.renderCount = 2 ∧
    dictLookup (cacheKey (env.hash pdf_bytes) page_num "ultra")
      (convert_page_to_image env (convert_page_to_image env freshProc pdf_bytes page_num "ultra").2
        pdf_bytes page_num "medium").2.page_cache = some img ∧
    dictLookup (cacheKey (env.hash pdf_bytes) page_num "medium")
      (convert_page_to_image env (convert_page_to_image env freshProc pdf_bytes page_num "ultra").2
        pdf_bytes page_num "medium").2.page_cache = some img ∧
    cacheKey (env.hash pdf_bytes) page_num "ultra" ≠
      cacheKey (env.hash pdf_bytes) page_num "medium" := by
  have hne : cacheKey (env.hash pdf_bytes) page_num "ultra" ≠
      cacheKey (env.hash pdf_bytes) page_num "medium" :=
    cacheKey_ne_of_quality_length (by decide)
  have hq : qualitySettings "ultra" = qualitySettings "medium" := by decide
  have hrenderU : env.render pdf_bytes page_num.toNat (qualitySettings "ultra") = some img := by
    rw [hq]
    exact hrender
  have hres : resolvePage (env.pageCount pdf_bytes) page_num = some page_num.toNat := by
    unfold resolvePage
    rw [if_pos ⟨h0, hlt⟩]
  have hmiss1 : dictLookup (cacheKey (env.hash pdf_bytes) page_num "ultra")
      freshProc.page_cache = none := rfl
  have hstate1 : convert_page_to_image env freshProc pdf_bytes page_num "ultra" =
      (some img, ⟨[(cacheKey (env.hash pdf_bytes) page_num "ultra", img)], 1⟩) := by
    rw [convert_miss_render_some hmiss1 hopen hlt hres hrenderU]
    simp [freshProc, cacheInsert, MAX_PAGES_IN_MEMORY]
  have hmiss2 : dictLookup (cacheKey (env.hash pdf_bytes) page_num "medium")
      (ProcState.mk [(cacheKey (env.hash pdf_bytes) page_num "ultra", img)] 1).page_cache =
        none := by
    simp [dictLookup, hne]
  have hstate2 := convert_miss_render_some hmiss2 hopen hlt hres hrender
  rw [hstate1]
  rw [hstate2]
  refine ⟨rfl, rfl, rfl, ?_, ?_, hne⟩
  · simp [cacheInsert, MAX_PAGES_IN_MEMORY, dictLookup]
  · simp [cacheInsert, MAX_PAGES_IN_MEMORY, dictLookup, hne]

/-- Witness for C10 at a concrete input. -/
theorem raw_quality_string_creates_two_cache_entries_witness :
    (convert_page_to_image envW freshProc [1] 0 "ultra").1 = some "img0at150" ∧
    (convert_page_to_image envW (convert_page_to_image envW freshProc [1] 0 "ultra").2
        [1] 0 "medium").1 = some "img0at150" ∧
    (convert_page_to_image envW (convert_page_to_image envW freshProc [1] 0 "ultra").2
        [1] 0 "medium").2.renderCount = 2 ∧
    dictLookup (cacheKey (envW.hash [1]) 0 "ultra")
      (convert_page_to_image envW (convert_page_to_image envW freshProc [1] 0 "ultra").2
        [1] 0 "medium").2.page_cache = some "img0at150" ∧
    dictLookup (cacheKey (envW.hash [1]) 0 "medium")
      (convert_page_to_image envW (convert_page_to_image envW freshProc [1] 0 "ultra").2
        [1] 0 "medium").2.page_cache = some "img0at150" ∧
    cacheKey (envW.hash [1]) 0 "ultra" ≠ cacheKey (envW.hash [1]) 0 "medium" :=
  raw_quality_string_creates_two_cache_entries envW [1] 0 "img0at150"
    rfl (by decide) (by decide) rfl

/-- Environment exhibiting a decode failure: one-page documents whose
render pipeline always raises (render result `none`). -/
def envLeak : PdfEnv :=
  { hash := fun _ => "h", pageCount := fun _ => 1, openOk := fun _ => true,
    render := fun _ _ _ => none }

/-- C6 counterexample: on a decode failure after the document was
opened (in-range page, render pipeline raises), `convert_page_to_image`
returns through the `except` clause without closing the document, so
the native handle outlives the call - refuting the claim that every
exit path releases the handle. -/
theorem convert_decode_failure_leaks_handle :
    convert_page_handle_fate envLeak freshProc [0] 0 "medium" = HandleFate.leaked := by rfl

/-- C6 amended: on a cache miss with `fitz.open` succeeding, the
document handle is closed before returning on the out-of-range path and
on every successful path, but an in-range call that returns no image (an
exception between open and encode) leaves the handle open when the call
returns. -/
theorem handle_closed_except_decode_failure (env : PdfEnv) (st : ProcState)
    (pdf_bytes : List Nat) (page_num : Int) (quality : String)
    (hmiss : dictLookup (cacheKey (env.hash pdf_bytes) page_num quality) st.page_cache = none)
    (hopen : env.openOk pdf_bytes = true) :
    ((env.pageCount pdf_bytes : Int) ≤ page_num →
      convert_page_handle_fate env st pdf_bytes page_num quality =
        HandleFate.closedBeforeReturn) ∧
    (∀ img, (convert_page_to_image env st pdf_bytes page_num quality).1 = some img →
      convert_page_handle_fate env st pdf_bytes page_num quality =
        HandleFate.closedBeforeReturn) ∧
    (page_num < (env.pageCount pdf_bytes : Int) →
      (convert_page_to_image env st pdf_bytes page_num quality).1 = none →
      convert_page_handle_fate env st pdf_bytes page_num quality = HandleFate.leaked) := by
  refine ⟨?_, ?_, ?_⟩
  · intro hge
    unfold convert_page_handle_fate
    simp [hmiss, hopen, hge]
  · intro img himg
    by_cases hge : (env.pageCount pdf_bytes : Int) ≤ page_num
    · rw [convert_miss_out_of_range hmiss hopen hge] at himg
      simp at himg
    · have hlt := not_le.mp hge
      cases hres : resolvePage (env.pageCount pdf_bytes) page_num with
      | none =>
        rw [convert_miss_resolve_fail hmiss hopen hlt hres] at himg
        simp at himg
      | some idx =>
        cases hrender : env.render pdf_bytes idx (qualitySettings quality) with
        | none =>
          rw [convert_miss_render_fail hmiss hopen hlt hres hrender] at himg
          simp at himg
        | some img2 =>
          unfold convert_page_handle_fate
          simp [hmiss, hopen, not_le.mpr hlt, hres, hrender]
  · intro hlt hnone
    cases hres : resolvePage (env.pageCount pdf_bytes) page_num with
    | none =>
      unfold convert_page_handle_fate
      simp [hmiss, hopen, not_le.mpr hlt, hres]
    | some idx =>
      cases hrender : env.render pdf_bytes idx (qualitySettings quality) with
      | none =>
        unfold convert_page_handle_fate
        simp [hmiss, hopen, not_le.mpr hlt, hres, hrender]
      | some img2 =>
        rw [convert_miss_render_some hmiss hopen hlt hres hrender] at hnone
        simp at hnone

/-- Witness for the amended C6 at a concrete input. -/
theorem handle_closed_except_decode_failure_witness :
    ((envW.pageCount [1] : Int) ≤ 0 →
      convert_page_handle_fate envW freshProc [1] 0 "medium" =
        HandleFate.closedBeforeReturn) ∧
    (∀ img, (convert_page_to_image envW freshProc [1] 0 "medium").1 = some img →
      convert_page_handle_fate envW freshProc [1] 0 "medium" =
        HandleFate.closedBeforeReturn) ∧
    (0 < (envW.pageCount [1] : Int) →
      (convert_page_to_image envW freshProc [1] 0 "medium").1 = none →
      convert_page_handle_fate envW freshProc [1] 0 "medium" = HandleFate.leaked) :=
  handle_closed_except_decode_failure envW freshProc [1] 0 "medium" rfl rfl

/-- A session state exercising `auto_cleanup` under critical pressure: a
transcript of one leading system message and twenty user messages, plus
a processor with a cached page. -/
def sessionC5 : SessionState :=
  { messages := some (⟨some "system", "prompt"⟩ :: List.replicate 20 ⟨some "user", "question"⟩),
    pdf_images := true,
    current_pdf_id := true,
    current_conversation_id := true,
    temp_data := true,
    pdf_processor := some ⟨[("k1", "v1")], 5⟩ }

/-- C5 evaluated at the failing input: on a critical classification,
`auto_cleanup` clears the page cache but also removes the `messages` key
entirely - `cleanup_session` deletes it before `optimize_messages 10`
runs, so the transcript is dropped rather than trimmed to the leading
system message plus the last 10 non-system messages. -/
theorem auto_cleanup_critical_drops_transcript :
    (auto_cleanup "critical" sessionC5).1.messages = none ∧
    (auto_cleanup "critical" sessionC5).1.pdf_processor = some ⟨[], 5⟩ ∧
    (auto_cleanup "critical" sessionC5).2 = true := by decide

/-- C8: on a transcript of one leading system message followed by 60
user/assistant messages, trimming with cap 50 keeps exactly 1 + 50
messages: the system message first and unchanged, then the most recent
50 non-system messages in their original relative order (the suffix
`msgs.drop 10`). -/
theorem optimize_messages_trims_to_recent_fifty (sys : Message)
    (hsys : sys.role = some "system")
    (msgs : List Message) (hlen : msgs.length = 60)
    (hroles : ∀ m ∈ msgs, m.role = some "user" ∨ m.role = some "assistant")
    (s : SessionState) (hm : s.messages = some (sys :: msgs)) :
    (optimize_messages 50 s).messages = some (sys :: msgs.drop 10) ∧
    (sys :: msgs.drop 10).length = 1 + 50 := by
  have hnotsys : ∀ m ∈ msgs, (m.role == some "system") = false := by
    intro m hmem
    rcases hroles m hmem with h | h <;> rw [h] <;> decide
  have hfilter_sys : msgs.filter (fun m => m.role == some "system") = [] := by
    rw [List.filter_eq_nil_iff]
    intro m hmem
    rw [hnotsys m hmem]
    decide
  have hfilter_other : msgs.filter (fun m => m.role != some "system") = msgs := by
    rw [List.filter_eq_self]
    intro m hmem
    rw [bne, hnotsys m hmem]
    decide
  have hlen61 : (sys :: msgs).length > 50 := by
    simp [hlen]
  have h1 : (sys :: msgs).filter (fun m => m.role == some "system") = [sys] := by
    rw [List.filter_cons_of_pos, hfilter_sys]
    rw [hsys]
    decide
  have h2 : (sys :: msgs).filter (fun m => m.role != some "system") = msgs := by
    rw [List.filter_cons_of_neg, hfilter_other]
    rw [bne, hsys]
    decide
  constructor
  · simp only [optimize_messages, hm]
    rw [if_pos hlen61]
    simp only [h1, h2]
    unfold pyTailSlice
    rw [if_neg (by decide), hlen]
    simp
  · simp [hlen]

/-- Transcript used by the C8 witness: 60 user messages. -/
def msgsC8 : List Message := List.replicate 60 ⟨some "user", "q"⟩

/-- Session used by the C8 witness. -/
def sessionC8 : SessionState :=
  { messages := some (⟨some "system", "p"⟩ :: msgsC8),
    pdf_images := false,
    current_pdf_id := false,
    current_conversation_id := false,
    temp_data := false,
    pdf_processor := none }

/-- Witness for C8 at a concrete input. -/
theorem optimize_messages_trims_to_recent_fifty_witness :
    (optimize_messages 50 sessionC8).messages =
      some (⟨some "system", "p"⟩ :: msgsC8.drop 10) ∧
    ((⟨some "system", "p"⟩ : Message) :: msgsC8.drop 10).length = 1 + 50 :=
  optimize_messages_trims_to_recent_fifty ⟨some "system", "p"⟩ rfl msgsC8
    (by decide) (by decide) sessionC8 rfl

/-- One `convert_page_to_image` request, for reasoning about sequences
of calls against a single processor. -/
structure CallSpec where
  pdf_bytes : List Nat
  page_num : Int
  quality : String

/-- The cache key this call uses. -/
def callKey (env : PdfEnv) (c : CallSpec) : String :=
  cacheKey (env.hash c.pdf_bytes) c.page_num c.quality

/-- Thread a sequence of `convert_page_to_image` calls through the
processor state. -/
def runCalls (env : PdfEnv) : List CallSpec → ProcState → ProcState
  | [], st => st
  | c :: rest, st =>
    runCalls env rest (convert_page_to_image env st c.pdf_bytes c.page_num c.quality).2

/-- Whether the environment renders this request successfully: the
document opens, the page index passes the guard and resolves, and the
render pipeline returns an image. -/
def callRendersB (env : PdfEnv) (c : CallSpec) : Bool :=
  env.openOk c.pdf_bytes &&
  decide (c.page_num < (env.pageCount c.pdf_bytes : Int)) &&
  (match resolvePage (env.pageCount c.pdf_bytes) c.page_num with
   | some idx => (env.render c.pdf_bytes idx (qualitySettings c.quality)).isSome
   | none => false)

/-- Propositional form of `callRendersB`. -/
def callRenders (env : PdfEnv) (c : CallSpec) : Prop := callRendersB env c = true

instance callRendersDecidable (env : PdfEnv) (c : CallSpec) : Decidable (callRenders env c) :=
  inferInstanceAs (Decidable (callRendersB env c = true))

theorem callRenders_elim {env : PdfEnv} {c : CallSpec} (h : callRenders env c) :
    env.openOk c.pdf_bytes = true ∧
    c.page_num < (env.pageCount c.pdf_bytes : Int) ∧
    ∃ idx img, resolvePage (env.pageCount c.pdf_bytes) c.page_num = some idx ∧
      env.render c.pdf_bytes idx (qualitySettings c.quality) = some img := by
  unfold callRenders callRendersB at h
  rw [Bool.and_eq_true, Bool.and_eq_true] at h
  obtain ⟨⟨hopen, hlt⟩, hm⟩ := h
  refine ⟨hopen, of_decide_eq_true hlt, ?_⟩
  cases hres : resolvePage (env.pageCount c.pdf_bytes) c.page_num with
  | none =>
    rw [hres] at hm
    simp at hm
  | some idx =>
    rw [hres] at hm
    rcases Option.isSome_iff_exists.mp hm with ⟨img, hrender⟩
    exact ⟨idx, img, rfl, hrender⟩

/-- Case analysis on the state left by one `convert_page_to_image`
call: either the cache is untouched (hit, open failure, guard, page
load failure), or only the render counter moved (render failure), or a
successful render inserted its key and image. -/
theorem convert_state_shape (env : PdfEnv) (st : ProcState) (pdf_bytes : List Nat)
    (page_num : Int) (quality : String) :
    (convert_page_to_image env st pdf_bytes page_num quality).2 = st ∨
    (convert_page_to_image env st pdf_bytes page_num quality).2 =
      { st with renderCount := st.renderCount + 1 } ∨
    ∃ idx img,
      dictLookup (cacheKey (env.hash pdf_bytes) page_num quality) st.page_cache = none ∧
      env.openOk pdf_bytes = true ∧
      page_num < (env.pageCount pdf_bytes : Int) ∧
      resolvePage (env.pageCount pdf_bytes) page_num = some idx ∧
      env.render pdf_bytes idx (qualitySettings quality) = some img ∧
      (convert_page_to_image env st pdf_bytes page_num quality).2 =
        { st with
          renderCount := st.renderCount + 1,
          page_cache :=
            cacheInsert st.page_cache (cacheKey (env.hash pdf_bytes) page_num quality) img } := by
  cases hdl : dictLookup (cacheKey (env.hash pdf_bytes) page_num quality) st.page_cache with
  | some v =>
    rw [convert_hit hdl]
    exact Or.inl rfl
  | none =>
    by_cases hopen : env.openOk pdf_bytes = true
    · by_cases hge : (env.pageCount pdf_bytes : Int) ≤ page_num
      · rw [convert_miss_out_of_range hdl hopen hge]
        exact Or.inl rfl
      · have hlt := not_le.mp hge
        cases hres : resolvePage (env.pageCount pdf_bytes) page_num with
        | none =>
          rw [convert_miss_resolve_fail hdl hopen hlt hres]
          exact Or.inl rfl
        | some idx =>
          cases hrender : env.render pdf_bytes idx (qualitySettings quality) with
          | none =>
            rw [convert_miss_render_fail hdl hopen hlt hres hrender]
            exact Or.inr (Or.inl rfl)
          | some img =>
            rw [convert_miss_render_some hdl hopen hlt hres hrender]
            exact Or.inr (Or.inr ⟨idx, img, rfl, hopen, hlt, rfl, hrender, rfl⟩)
    · have hopen2 : env.openOk pdf_bytes = false := by
        cases hb : env.openOk pdf_bytes
        · rfl
        · exact absurd hb hopen
      rw [convert_miss_open_fail hdl hopen2]
      exact Or.inl rfl

/-- One call never grows the cache beyond the capacity bound. -/
theorem convert_cache_bound {env : PdfEnv} {st : ProcState} {pdf_bytes : List Nat}
    {page_num : Int} {quality : String}
    (h : st.page_cache.length ≤ MAX_PAGES_IN_MEMORY) :
    (convert_page_to_image env st pdf_bytes page_num quality).2.page_cache.length ≤
      MAX_PAGES_IN_MEMORY := by
  rcases convert_state_shape env st pdf_bytes page_num quality with
    h1 | h1 | ⟨idx, img, _, _, _, _, _, h1⟩ <;> rw [h1]
  · exact h
  · exact h
  · exact cacheInsert_length_le h

/-- Any sequence of calls keeps the cache within the capacity bound. -/
theorem runCalls_cache_bound (env : PdfEnv) :
    ∀ (cs : List CallSpec) (st : ProcState),
      st.page_cache.length ≤ MAX_PAGES_IN_MEMORY →
      (runCalls env cs st).page_cache.length ≤ MAX_PAGES_IN_MEMORY := by
  intro cs
  induction cs with
  | nil => exact fun st h => h
  | cons c rest ih =>
    intro st h
    exact ih _ (convert_cache_bound h)

/-- The effect of a `cacheInsert` on the key sequence alone. -/
def keysInsert (ks : List String) (k : String) : List String :=
  if ks.length < MAX_PAGES_IN_MEMORY then ks ++ [k] else ks.tail ++ [k]

theorem map_fst_cacheInsert (c : List (String × String)) (k v : String) :
    (cacheInsert c k v).map Prod.fst = keysInsert (c.map Prod.fst) k := by
  unfold cacheInsert keysInsert
  simp only [List.length_map]
  split
  · simp
  · cases c with
    | nil => simp
    | cons kv0 t => simp

theorem keysInsert_drop_step {done : List String} {k : String} :
    keysInsert (done.drop (done.length - MAX_PAGES_IN_MEMORY)) k =
      (done ++ [k]).drop ((done ++ [k]).length - MAX_PAGES_IN_MEMORY) := by
  have hM : 0 < MAX_PAGES_IN_MEMORY := by decide
  by_cases hc : done.length < MAX_PAGES_IN_MEMORY
  · have h0 : done.length - MAX_PAGES_IN_MEMORY = 0 := by omega
    have h1 : (done ++ [k]).length - MAX_PAGES_IN_MEMORY = 0 := by
      simp only [List.length_append, List.length_cons, List.length_nil]
      omega
    rw [h0, h1, List.drop_zero, List.drop_zero]
    unfold keysInsert
    rw [if_pos hc]
  · have hge : MAX_PAGES_IN_MEMORY ≤ done.length := not_lt.mp hc
    unfold keysInsert
    rw [if_neg (by rw [List.length_drop]; omega)]
    rw [List.tail_drop]
    have h2 : (done ++ [k]).length - MAX_PAGES_IN_MEMORY =
        done.length - MAX_PAGES_IN_MEMORY + 1 := by
      simp only [List.length_append, List.length_cons, List.length_nil]
      omega
    rw [h2, List.drop_append_of_le_length (by omega)]

theorem foldl_keysInsert_eq (ks : List String) :
    ∀ done : List String,
      ks.foldl keysInsert (done.drop (done.length - MAX_PAGES_IN_MEMORY)) =
        (done ++ ks).drop ((done ++ ks).length - MAX_PAGES_IN_MEMORY) := by
  induction ks with
  | nil =>
    intro done
    simp
  | cons k rest ih =>
    intro done
    rw [List.foldl_cons, keysInsert_drop_step]
    have h := ih (done ++ [k])
    rw [List.append_assoc] at h
    simpa using h

theorem foldl_keysInsert_from_empty (ks : List String) :
    ks.foldl keysInsert [] = ks.drop (ks.length - MAX_PAGES_IN_MEMORY) := by
  have h := foldl_keysInsert_eq ks []
  simpa using h

/-- Running a sequence of successful fresh-key calls turns the cache key
sequence into the corresponding fold of `keysInsert` over the call
keys. -/
theorem runCalls_cache_keys (env : PdfEnv) :
    ∀ (calls : List CallSpec) (st : ProcState),
      (∀ c ∈ calls, callRenders env c) →
      ((calls.map (callKey env)).Nodup) →
      (∀ c ∈ calls, dictLookup (callKey env c) st.page_cache = none) →
      (runCalls env calls st).page_cache.map Prod.fst =
        (calls.map (callKey env)).foldl keysInsert (st.page_cache.map Prod.fst) := by
  intro calls
  induction calls with
  | nil =>
    intro st h1 h2 h3
    rfl
  | cons c rest ih =>
    intro st h1 h2 h3
    obtain ⟨hopen, hlt, idx, img, hres, hrender⟩ :=
      callRenders_elim (h1 c (List.mem_cons_self c rest))
    have hmiss : dictLookup (callKey env c) st.page_cache = none :=
      h3 c (List.mem_cons_self c rest)
    have hstep := convert_miss_render_some hmiss hopen hlt hres hrender
    rw [List.map_cons] at h2
    obtain ⟨hn1, hn2⟩ := List.nodup_cons.mp h2
    have hrun : runCalls env (c :: rest) st =
        runCalls env rest
          (ProcState.mk (cacheInsert st.page_cache (callKey env c) img)
            (st.renderCount + 1)) := by
      rw [runCalls, hstep]
      rfl
    have happly := ih
      (ProcState.mk (cacheInsert st.page_cache (callKey env c) img) (st.renderCount + 1))
      (fun c2 hc2 => h1 c2 (List.mem_cons_of_mem _ hc2))
      hn2
      (fun c2 hc2 => by
        have hne : callKey env c2 ≠ callKey env c := by
          intro he
          exact hn1 (he ▸ List.mem_map_of_mem (callKey env) hc2)
        exact dictLookup_cacheInsert_other hne (h3 c2 (List.mem_cons_of_mem _ hc2)))
    rw [hrun, List.map_cons, List.foldl_cons, happly]
    dsimp only
    rw [map_fst_cacheInsert]

/-- C1: over any sequence of `convert_page_to_image` calls the page
cache of a processor never exceeds `MAX_PAGES_IN_MEMORY` (15) entries;
and for a fresh processor receiving `capacity + k` successful calls
with pairwise-distinct cache keys, the final cache holds exactly the
last 15 keys in insertion order: the `k` earliest-inserted keys are
exactly the ones absent (each insertion at capacity evicted the single
oldest-inserted entry). -/
theorem page_cache_capacity_and_fifo_eviction (env : PdfEnv) (calls : List CallSpec) (k : Nat)
    (hrend : ∀ c ∈ calls, callRenders env c)
    (hdist : (calls.map (callKey env)).Nodup)
    (hlen : calls.length = MAX_PAGES_IN_MEMORY + k) :
    (∀ (cs : List CallSpec) (st : ProcState),
        st.page_cache.length ≤ MAX_PAGES_IN_MEMORY →
        (runCalls env cs st).page_cache.length ≤ MAX_PAGES_IN_MEMORY) ∧
    (runCalls env calls freshProc).page_cache.map Prod.fst =
      (calls.map (callKey env)).drop k ∧
    (∀ c ∈ calls.take k,
        dictLookup (callKey env c) (runCalls env calls freshProc).page_cache = none) ∧
    (∀ c ∈ calls.drop k,
        (dictLookup (callKey env c) (runCalls env calls freshProc).page_cache).isSome) := by
  have hkeys : (runCalls env calls freshProc).page_cache.map Prod.fst =
      (calls.map (callKey env)).drop k := by
    have h0 := runCalls_cache_keys env calls freshProc hrend hdist (fun c hc => rfl)
    rw [h0]
    have h1 : (freshProc.page_cache.map Prod.fst) = ([] : List String) := rfl
    rw [h1, foldl_keysInsert_from_empty]
    have h2 : (calls.map (callKey env)).length = MAX_PAGES_IN_MEMORY + k := by
      rw [List.length_map, hlen]
    rw [h2]
    congr 1
    omega
  refine ⟨runCalls_cache_bound env, hkeys, ?_, ?_⟩
  · intro c hc
    have hmem : callKey env c ∈ (calls.map (callKey env)).take k := by
      rw [← List.map_take]
      exact List.mem_map_of_mem _ hc
    have hdisj := List.disjoint_take_drop hdist (le_refl k)
    have hnot : callKey env c ∉ (calls.map (callKey env)).drop k := hdisj hmem
    have hns : ¬ (dictLookup (callKey env c) (runCalls env calls freshProc).page_cache).isSome := by
      rw [dictLookup_isSome_iff, hkeys]
      exact hnot
    exact Option.not_isSome_iff_eq_none.mp hns
  · intro c hc
    have hmem : callKey env c ∈ (calls.map (callKey env)).drop k := by
      rw [← List.map_drop]
      exact List.mem_map_of_mem _ hc
    rw [dictLookup_isSome_iff, hkeys]
    exact hmem

/-- Environment for the C1 witness: one 20-page document, rendering
always succeeding. -/
def envC1 : PdfEnv :=
  { hash := fun _ => "h", pageCount := fun _ => 20, openOk := fun _ => true,
    render := fun _ idx _ => some ("p" ++ toString idx) }

/-- Sixteen distinct-page requests (capacity 15 plus k = 1). -/
def callsC1 : List CallSpec := (List.range 16).map (fun i => ⟨[1], Int.ofNat i, "medium"⟩)

/-- Witness for C1 at a concrete input. -/
theorem page_cache_capacity_and_fifo_eviction_witness :
    (∀ (cs : List CallSpec) (st : ProcState),
        st.page_cache.length ≤ MAX_PAGES_IN_MEMORY →
        (runCalls envC1 cs st).page_cache.length ≤ MAX_PAGES_IN_MEMORY) ∧
    (runCalls envC1 callsC1 freshProc).page_cache.map Prod.fst =
      (callsC1.map (callKey envC1)).drop 1 ∧
    (∀ c ∈ callsC1.take 1,
        dictLookup (callKey envC1 c) (runCalls envC1 callsC1 freshProc).page_cache = none) ∧
    (∀ c ∈ callsC1.drop 1,
        (dictLookup (callKey envC1 c) (runCalls envC1 callsC1 freshProc).page_cache).isSome) :=
  page_cache_capacity_and_fifo_eviction envC1 callsC1 1 (by decide) (by decide) (by decide)

/-- Cache keys with hashes of equal length agree on the hash whenever
the keys agree (md5 hex digests all have length 32, so two different
documents always produce different keys). -/
theorem cacheKey_hash_inj {h1 h2 : String} {p1 p2 : Int} {q1 q2 : String}
    (hlen : h1.length = h2.length)
    (he : cacheKey h1 p1 q1 = cacheKey h2 p2 q2) : h1 = h2 := by
  unfold cacheKey at he
  have hd := congrArg String.data he
  simp only [String.data_append, List.append_assoc] at hd
  have hlen2 : h1.data.length = h2.data.length := hlen
  exact String.ext (List.append_inj hd hlen2).1

/-- A returned image is either the cached value under this key or a
fresh render of the resolved page. -/
theorem convert_result_some {env : PdfEnv} {st : ProcState} {pdf_bytes : List Nat}
    {page_num : Int} {quality : String} {img : String}
    (h : (convert_page_to_image env st pdf_bytes page_num quality).1 = some img) :
    dictLookup (cacheKey (env.hash pdf_bytes) page_num quality) st.page_cache = some img ∨
    ∃ idx, resolvePage (env.pageCount pdf_bytes) page_num = some idx ∧
      env.render pdf_bytes idx (qualitySettings quality) = some img := by
  cases hdl : dictLookup (cacheKey (env.hash pdf_bytes) page_num quality) st.page_cache with
  | some v =>
    rw [convert_hit hdl] at h
    left
    simpa using h
  | none =>
    by_cases hopen : env.openOk pdf_bytes = true
    · by_cases hge : (env.pageCount pdf_bytes : Int) ≤ page_num
      · rw [convert_miss_out_of_range hdl hopen hge] at h
        simp at h
      · have hlt := not_le.mp hge
        cases hres : resolvePage (env.pageCount pdf_bytes) page_num with
        | none =>
          rw [convert_miss_resolve_fail hdl hopen hlt hres] at h
          simp at h
        | some idx =>
          cases hrender : env.render pdf_bytes idx (qualitySettings quality) with
          | none =>
            rw [convert_miss_render_fail hdl hopen hlt hres hrender] at h
            simp at h
          | some img2 =>
            rw [convert_miss_render_some hdl hopen hlt hres hrender] at h
            right
            refine ⟨idx, rfl, ?_⟩
            have he2 : img2 = img := by simpa using h
            rw [← he2]
            exact hrender
    · have hopen2 : env.openOk pdf_bytes = false := by
        cases hb : env.openOk pdf_bytes
        · rfl
        · exact absurd hb hopen
      rw [convert_miss_open_fail hdl hopen2] at h
      simp at h

/-- Every cache entry after a call is either a pre-existing entry or the
key-image pair of a successful render performed by that call. -/
theorem convert_cache_mem {env : PdfEnv} {st : ProcState} {pdf_bytes : List Nat}
    {page_num : Int} {quality : String} {kv : String × String}
    (h : kv ∈ (convert_page_to_image env st pdf_bytes page_num quality).2.page_cache) :
    kv ∈ st.page_cache ∨
    ∃ idx, kv.1 = cacheKey (env.hash pdf_bytes) page_num quality ∧
      resolvePage (env.pageCount pdf_bytes) page_num = some idx ∧
      env.render pdf_bytes idx (qualitySettings quality) = some kv.2 := by
  rcases convert_state_shape env st pdf_bytes page_num quality with
    h1 | h1 | ⟨idx, img, hdl, ho, hl, hres, hrender, h1⟩
  · rw [h1] at h
    exact Or.inl h
  · rw [h1] at h
    exact Or.inl h
  · rw [h1] at h
    rcases mem_cacheInsert h with h2 | h2
    · exact Or.inl h2
    · subst h2
      exact Or.inr ⟨idx, rfl, hres, hrender⟩

/-- One call grows the cache by at most one entry. -/
theorem convert_cache_growth {env : PdfEnv} {st : ProcState} {pdf_bytes : List Nat}
    {page_num : Int} {quality : String} :
    (convert_page_to_image env st pdf_bytes page_num quality).2.page_cache.length ≤
      st.page_cache.length + 1 := by
  rcases convert_state_shape env st pdf_bytes page_num quality with
    h1 | h1 | ⟨idx, img, _, _, _, _, _, h1⟩ <;> rw [h1]
  · exact Nat.le_succ _
  · exact Nat.le_succ _
  · exact cacheInsert_length_le_succ

/-- Below capacity, a call preserves existing cache entries. -/
theorem convert_lookup_preserved {env : PdfEnv} {st : ProcState} {pdf_bytes : List Nat}
    {page_num : Int} {quality : String} {key v : String}
    (hlen : st.page_cache.length < MAX_PAGES_IN_MEMORY)
    (h : dictLookup key st.page_cache = some v) :
    dictLookup key (convert_page_to_image env st pdf_bytes page_num quality).2.page_cache =
      some v := by
  rcases convert_state_shape env st pdf_bytes page_num quality with
    h1 | h1 | ⟨idx, img, _, _, _, _, _, h1⟩ <;> rw [h1]
  · exact h
  · exact h
  · exact dictLookup_cacheInsert_append hlen h

/-- A nonnegative page index resolves to itself (and is in range)
whenever the document lookup succeeds. -/
theorem resolve_ofNat_elim {count i idx : Nat}
    (h : resolvePage count (Int.ofNat i) = some idx) : idx = i ∧ i < count := by
  unfold resolvePage at h
  split at h
  · rename_i hcond
    injection h with h2
    refine ⟨?_, ?_⟩
    · rw [← h2]
      rfl
    · have h3 := hcond.2
      rw [Int.ofNat_eq_natCast] at h3
      exact_mod_cast h3
  · split at h
    · rename_i hcond2
      exfalso
      simp only [Int.ofNat_eq_natCast] at hcond2
      omega
    · exact absurd h (by simp)

/-- An entry belonging to the freshly uploaded document: keyed by its
hash at medium quality for some in-range page, holding that page's
rendered image. -/
def bEntry (env : PdfEnv) (pdf_bytes : List Nat) (kv : String × String) : Prop :=
  ∃ j : Nat, j < env.pageCount pdf_bytes ∧
    kv.1 = cacheKey (env.hash pdf_bytes) (Int.ofNat j) "medium" ∧
    env.render pdf_bytes j (qualitySettings "medium") = some kv.2

theorem initialStep_snd (env : PdfEnv) (pdf_bytes : List Nat)
    (acc : List (Nat × String) × ProcState) (i : Nat) :
    (initialStep env pdf_bytes acc i).2 =
      (convert_page_to_image env acc.2 pdf_bytes (Int.ofNat i) "medium").2 := by
  unfold initialStep get_page_for_analysis
  rcases hc : convert_page_to_image env acc.2 pdf_bytes (Int.ofNat i) "medium" with ⟨r, s⟩
  rcases r with _ | img
  · rfl
  · dsimp only
    split <;> rfl

theorem initialStep_entries {env : PdfEnv} {pdf_bytes : List Nat}
    {acc : List (Nat × String) × ProcState} {i : Nat}
    (hinv : ∀ kv ∈ acc.2.page_cache, bEntry env pdf_bytes kv) :
    ∀ kv ∈ (initialStep env pdf_bytes acc i).2.page_cache, bEntry env pdf_bytes kv := by
  intro kv hkv
  rw [initialStep_snd] at hkv
  rcases convert_cache_mem hkv with hold | ⟨idx, hkey, hres, hrender⟩
  · exact hinv kv hold
  · obtain ⟨hidx, hlt⟩ := resolve_ofNat_elim hres
    subst hidx
    exact ⟨idx, hlt, hkey, hrender⟩

theorem initialLoop_entries (env : PdfEnv) (pdf_bytes : List Nat) :
    ∀ (ps : List Nat) (acc : List (Nat × String) × ProcState),
      (∀ kv ∈ acc.2.page_cache, bEntry env pdf_bytes kv) →
      ∀ kv ∈ (ps.foldl (initialStep env pdf_bytes) acc).2.page_cache,
        bEntry env pdf_bytes kv := by
  intro ps
  induction ps with
  | nil => exact fun acc hinv => hinv
  | cons i rest ih =>
    intro acc hinv
    rw [List.foldl_cons]
    exact ih _ (initialStep_entries hinv)

/-- An image that is a medium-quality render of some in-range page of
the given document. -/
def windowImg (env : PdfEnv) (pdf_bytes : List Nat) (img : String) : Prop :=
  ∃ j : Nat, j < env.pageCount pdf_bytes ∧
    env.render pdf_bytes j (qualitySettings "medium") = some img

theorem initialStep_window {env : PdfEnv} {pdf_bytes : List Nat}
    {acc : List (Nat × String) × ProcState} {i : Nat}
    (hcache : ∀ kv ∈ acc.2.page_cache, bEntry env pdf_bytes kv)
    (hwin : ∀ iv ∈ acc.1, windowImg env pdf_bytes iv.2) :
    ∀ iv ∈ (initialStep env pdf_bytes acc i).1, windowImg env pdf_bytes iv.2 := by
  intro iv hiv
  unfold initialStep get_page_for_analysis at hiv
  rcases hc : convert_page_to_image env acc.2 pdf_bytes (Int.ofNat i) "medium" with ⟨r, s⟩
  rw [hc] at hiv
  rcases r with _ | img
  · exact hwin iv (by simpa using hiv)
  · dsimp only at hiv
    split at hiv
    · exact hwin iv hiv
    · rcases mem_dictInsert hiv with hold | hnew
      · exact hwin iv hold
      · subst hnew
        have hr : (convert_page_to_image env acc.2 pdf_bytes (Int.ofNat i) "medium").1 =
            some img := by
          rw [hc]
        rcases convert_result_some hr with hhit | ⟨idx, hres, hrender⟩
        · rcases hcache _ (dictLookup_eq_some_mem hhit) with ⟨j, hj, hkey, hrend⟩
          exact ⟨j, hj, hrend⟩
        · obtain ⟨hidx, hlt⟩ := resolve_ofNat_elim hres
          subst hidx
          exact ⟨idx, hlt, hrender⟩

theorem initialLoop_window (env : PdfEnv) (pdf_bytes : List Nat) :
    ∀ (ps : List Nat) (acc : List (Nat × String) × ProcState),
      (∀ kv ∈ acc.2.page_cache, bEntry env pdf_bytes kv) →
      (∀ iv ∈ acc.1, windowImg env pdf_bytes iv.2) →
      ∀ iv ∈ (ps.foldl (initialStep env pdf_bytes) acc).1,
        windowImg env pdf_bytes iv.2 := by
  intro ps
  induction ps with
  | nil => exact fun acc hcache hwin => hwin
  | cons i rest ih =>
    intro acc hcache hwin
    rw [List.foldl_cons]
    exact ih _ (initialStep_entries hcache) (initialStep_window hcache hwin)

theorem initialLoop_lookup_preserved (env : PdfEnv) (pdf_bytes : List Nat) :
    ∀ (ps : List Nat) (acc : List (Nat × String) × ProcState) (key v : String),
      dictLookup key acc.2.page_cache = some v →
      acc.2.page_cache.length + ps.length ≤ MAX_PAGES_IN_MEMORY →
      dictLookup key ((ps.foldl (initialStep env pdf_bytes) acc).2).page_cache = some v := by
  intro ps
  induction ps with
  | nil => exact fun acc key v h hb => h
  | cons i rest ih =>
    intro acc key v h hb
    simp only [List.length_cons] at hb
    rw [List.foldl_cons]
    have hg : (convert_page_to_image env acc.2 pdf_bytes (Int.ofNat i) "medium").2.page_cache.length ≤
        acc.2.page_cache.length + 1 := convert_cache_growth
    apply ih
    · rw [initialStep_snd]
      apply convert_lookup_preserved
      · omega
      · exact h
    · rw [initialStep_snd]
      omega

/-- C3: uploading a new document B through `process_pdf_upload` first
clears the previous document's cache (`cleanup_previous`), so
afterwards (i) no cache entry keyed by document A's identity remains,
(ii) a request for page 0 of B is served from B's freshly rendered
entry, (iii) the initial window holds only B's rendered pages, and
(iv) a subsequent request for any in-range page of A re-renders (the
renderer counter increments) instead of hitting the cache. -/
theorem upload_new_document_isolates_cache (env : PdfEnv) (s : SessionState)
    (proc : ProcState) (pdfA pdfB : List Nat) (max_initial_pages : Nat) (imgB : String)
    (hhlen : (env.hash pdfA).length = (env.hash pdfB).length)
    (hhne : env.hash pdfA ≠ env.hash pdfB)
    (hopenB : env.openOk pdfB = true)
    (hcount : 0 < env.pageCount pdfB)
    (hmi : max_initial_pages ≤ MAX_PAGES_IN_MEMORY)
    (hmi0 : 0 < max_initial_pages)
    (hrender0 : env.render pdfB 0 (qualitySettings "medium") = some imgB) :
    (∀ (p : Int) (q : String),
        dictLookup (cacheKey (env.hash pdfA) p q)
          (process_pdf_upload env s proc pdfB max_initial_pages).2.2.page_cache = none) ∧
    convert_page_to_image env (process_pdf_upload env s proc pdfB max_initial_pages).2.2
        pdfB 0 "medium" =
      (some imgB, (process_pdf_upload env s proc pdfB max_initial_pages).2.2) ∧
    (∀ r, (process_pdf_upload env s proc pdfB max_initial_pages).1 = some r →
        ∀ iv ∈ r.initial_pages, windowImg env pdfB iv.2) ∧
    (∀ (p : Int) (q : String), env.openOk pdfA = true → 0 ≤ p →
        p < (env.pageCount pdfA : Int) →
        (convert_page_to_image env
            (process_pdf_upload env s proc pdfB max_initial_pages).2.2 pdfA p q).2.renderCount =
          (process_pdf_upload env s proc pdfB max_initial_pages).2.2.renderCount + 1) := by
  have hup : process_pdf_upload env s proc pdfB max_initial_pages =
      (some ⟨env.pageCount pdfB, env.hash pdfB,
          (initialPagesLoop env pdfB (min max_initial_pages (env.pageCount pdfB))
            (clear_cache proc)).1, env.pageCount pdfB⟩,
        { s with pdf_images := false },
        (initialPagesLoop env pdfB (min max_initial_pages (env.pageCount pdfB))
          (clear_cache proc)).2) := by
    unfold process_pdf_upload cleanup_previous
    rw [if_neg (by simp [hopenB])]
  have hempty : ∀ kv ∈ (clear_cache proc).page_cache, bEntry env pdfB kv := by
    intro kv hkv
    simp [clear_cache] at hkv
  have hcacheInv : ∀ kv ∈ (initialPagesLoop env pdfB
      (min max_initial_pages (env.pageCount pdfB)) (clear_cache proc)).2.page_cache,
      bEntry env pdfB kv := by
    unfold initialPagesLoop
    exact initialLoop_entries env pdfB _ _ hempty
  have ha : ∀ (p : Int) (q : String),
      dictLookup (cacheKey (env.hash pdfA) p q)
        (initialPagesLoop env pdfB (min max_initial_pages (env.pageCount pdfB))
          (clear_cache proc)).2.page_cache = none := by
    intro p q
    cases hdl : dictLookup (cacheKey (env.hash pdfA) p q)
        (initialPagesLoop env pdfB (min max_initial_pages (env.pageCount pdfB))
          (clear_cache proc)).2.page_cache with
    | none => rfl
    | some v =>
      exfalso
      rcases hcacheInv _ (dictLookup_eq_some_mem hdl) with ⟨j, hj, hkey, hrend⟩
      exact hhne (cacheKey_hash_inj hhlen hkey)
  have hlook0 : dictLookup (cacheKey (env.hash pdfB) (Int.ofNat 0) "medium")
      (initialPagesLoop env pdfB (min max_initial_pages (env.pageCount pdfB))
        (clear_cache proc)).2.page_cache = some imgB := by
    obtain ⟨m, hm⟩ : ∃ m, min max_initial_pages (env.pageCount pdfB) = m + 1 := by
      have hpos : 0 < min max_initial_pages (env.pageCount pdfB) := lt_min hmi0 hcount
      exact ⟨min max_initial_pages (env.pageCount pdfB) - 1, by omega⟩
    unfold initialPagesLoop
    rw [hm, List.range_succ_eq_map, List.foldl_cons]
    have hmiss0 : dictLookup (cacheKey (env.hash pdfB) (Int.ofNat 0) "medium")
        (clear_cache proc).page_cache = none := rfl
    have hlt0 : (Int.ofNat 0) < (env.pageCount pdfB : Int) := by
      rw [Int.ofNat_eq_natCast]
      exact_mod_cast hcount
    have hres0 : resolvePage (env.pageCount pdfB) (Int.ofNat 0) = some 0 := by
      unfold resolvePage
      rw [if_pos ⟨by simp [Int.ofNat_eq_natCast], hlt0⟩]
      rfl
    have hconv0 := convert_miss_render_some hmiss0 hopenB hlt0 hres0 hrender0
    have hsnd0 : (initialStep env pdfB ([], clear_cache proc) 0).2 =
        ProcState.mk [(cacheKey (env.hash pdfB) (Int.ofNat 0) "medium", imgB)]
          ((clear_cache proc).renderCount + 1) := by
      rw [initialStep_snd, hconv0]
      rfl
    apply initialLoop_lookup_preserved
    · rw [hsnd0]
      simp [dictLookup]
    · rw [hsnd0]
      have hle : m + 1 ≤ MAX_PAGES_IN_MEMORY := by
        rw [← hm]
        exact le_trans (min_le_left _ _) hmi
      simp only [List.length_map, List.length_range, List.length_cons, List.length_nil]
      omega
  rw [hup]
  dsimp only
  refine ⟨ha, convert_hit hlook0, ?_, ?_⟩
  · intro r hr
    have hr2 : (⟨env.pageCount pdfB, env.hash pdfB,
        (initialPagesLoop env pdfB (min max_initial_pages (env.pageCount pdfB))
          (clear_cache proc)).1, env.pageCount pdfB⟩ : UploadResult) = r := by
      simpa using hr
    subst hr2
    intro iv hiv
    have hiv2 : iv ∈ ((List.range (min max_initial_pages (env.pageCount pdfB))).foldl
        (initialStep env pdfB) ([], clear_cache proc)).1 := hiv
    refine initialLoop_window env pdfB _ _ hempty ?_ iv hiv2
    intro iv2 h2
    simp at h2
  · intro p q hopenA hp0 hplt
    have hmissA := ha p q
    have hresA : resolvePage (env.pageCount pdfA) p = some p.toNat := by
      unfold resolvePage
      rw [if_pos ⟨hp0, hplt⟩]
    cases hrender : env.render pdfA p.toNat (qualitySettings q) with
    | none =>
      rw [convert_miss_render_fail hmissA hopenA hplt hresA hrender]
    | some im =>
      rw [convert_miss_render_some hmissA hopenA hplt hresA hrender]

/-- Processor state with some prior activity, for the C3 witness. -/
def procC3 : ProcState := ⟨[(cacheKey "bbbb" 0 "medium", "oldA")], 3⟩

/-- Witness for C3 at a concrete input: document A = [2] (hash "bbbb"),
document B = [1] (hash "aaaa"), default initial window of 10. -/
theorem upload_new_document_isolates_cache_witness :
    (∀ (p : Int) (q : String),
        dictLookup (cacheKey (envW.hash [2]) p q)
          (process_pdf_upload envW sessionC8 procC3 [1] 10).2.2.page_cache = none) ∧
    convert_page_to_image envW (process_pdf_upload envW sessionC8 procC3 [1] 10).2.2
        [1] 0 "medium" =
      (some "img0at150", (process_pdf_upload envW sessionC8 procC3 [1] 10).2.2) ∧
    (∀ r, (process_pdf_upload envW sessionC8 procC3 [1] 10).1 = some r →
        ∀ iv ∈ r.initial_pages, windowImg envW [1] iv.2) ∧
    (∀ (p : Int) (q : String), envW.openOk [2] = true → 0 ≤ p →
        p < (envW.pageCount [2] : Int) →
        (convert_page_to_image envW
            (process_pdf_upload envW sessionC8 procC3 [1] 10).2.2 [2] p q).2.renderCount =
          (process_pdf_upload envW sessionC8 procC3 [1] 10).2.2.renderCount + 1) :=
  upload_new_document_isolates_cache envW sessionC8 procC3 [2] [1] 10 "img0at150"
    (by decide) (by decide) rfl (by decide) (by decide) (by decide) rfl

/-! ### Decimal string representations are injective

Python formats the page number into the cache key with `str(page_num)`;
the Lean embedding uses `toString`.  Both are the usual decimal
notation, injective on integers; the following chain proves injectivity
of `Nat.repr` via `Nat.digits` and lifts it to nonnegative `Int`. -/

/-- The decimal digit characters of `n`, most significant first. -/
def digitsRev (n : Nat) : List Char := (Nat.digits 10 n).reverse.map Nat.digitChar
theorem toDigitsCore_eq_digitsRev :
    ∀ (fuel n : Nat) (ds : List Char), n < fuel → 0 < n →
      Nat.toDigitsCore 10 fuel n ds = digitsRev n ++ ds := by
  intro fuel
  induction fuel with
  | zero =>
    intro n ds h hpos
    omega
  | succ f ih =>
    intro n ds hlt hpos
    rw [Nat.toDigitsCore]
    by_cases hz : n / 10 = 0
    · rw [if_pos hz]
      have hn10 : n < 10 := by omega
      have hd : Nat.digits 10 n = [n % 10] := by
        rw [Nat.digits_def' (by norm_num : (1:ℕ) < 10) hpos, hz]
        simp
      unfold digitsRev
      rw [hd]
      simp
    · rw [if_neg hz]
      have hrec := ih (n / 10) (Nat.digitChar (n % 10) :: ds) (by omega) (by omega)
      rw [hrec]
      have hsplit : digitsRev n = digitsRev (n / 10) ++ [Nat.digitChar (n % 10)] := by
        unfold digitsRev
        rw [Nat.digits_def' (by norm_num : (1:ℕ) < 10) hpos]
        simp
      rw [hsplit, List.append_assoc]
      rfl

theorem repr_eq_digitsRev {n : Nat} (h : 0 < n) : Nat.repr n = (digitsRev n).asString := by
  unfold Nat.repr Nat.toDigits
  rw [toDigitsCore_eq_digitsRev (n+1) n [] (by omega) h]
  simp

theorem digitChar_inj_lt :
    ∀ a, a < 10 → ∀ b, b < 10 → Nat.digitChar a = Nat.digitChar b → a = b := by decide

theorem map_digitChar_inj :
    ∀ (l1 l2 : List Nat), (∀ x ∈ l1, x < 10) → (∀ x ∈ l2, x < 10) →
      l1.map Nat.digitChar = l2.map Nat.digitChar → l1 = l2 := by
  intro l1
  induction l1 with
  | nil =>
    intro l2 _ _ h
    cases l2 with
    | nil => rfl
    | cons b r2 => simp at h
  | cons a r ih =>
    intro l2 h1 h2 h
    cases l2 with
    | nil => simp at h
    | cons b r2 =>
      simp only [List.map_cons, List.cons.injEq] at h
      have hab : a = b :=
        digitChar_inj_lt a (h1 a (List.mem_cons_self a r)) b (h2 b (List.mem_cons_self b r2)) h.1
      rw [hab, ih r2 (fun x hx => h1 x (List.mem_cons_of_mem _ hx))
        (fun x hx => h2 x (List.mem_cons_of_mem _ hx)) h.2]

theorem repr_pos_ne_repr_zero {n : Nat} (hn : 0 < n) : Nat.repr n ≠ Nat.repr 0 := by
  intro h
  rw [repr_eq_digitsRev hn] at h
  have hdata := congrArg String.data h
  have h2 : digitsRev n = ['0'] := hdata
  unfold digitsRev at h2
  have hlen : (Nat.digits 10 n).length = 1 := by
    have := congrArg List.length h2
    simpa using this
  obtain ⟨d, hd⟩ : ∃ d, Nat.digits 10 n = [d] := by
    cases hdig : Nat.digits 10 n with
    | nil => rw [hdig] at hlen; simp at hlen
    | cons x xs =>
      rw [hdig] at hlen
      simp at hlen
      exact ⟨x, by rw [hlen]⟩
  rw [hd] at h2
  simp at h2
  have hd10 : d < 10 :=
    Nat.digits_lt_base (by norm_num) (by rw [hd]; exact List.mem_cons_self d [])
  have hd0 : d = 0 := digitChar_inj_lt d hd10 0 (by norm_num) h2
  have h6 := Nat.ofDigits_digits 10 n
  rw [hd, hd0] at h6
  simp [Nat.ofDigits] at h6
  omega

theorem nat_repr_inj {m n : Nat} (h : Nat.repr m = Nat.repr n) : m = n := by
  rcases Nat.eq_zero_or_pos m with hm | hm
  · rcases Nat.eq_zero_or_pos n with hn | hn
    · rw [hm, hn]
    · subst hm
      exact absurd h.symm (repr_pos_ne_repr_zero hn)
  · rcases Nat.eq_zero_or_pos n with hn | hn
    · subst hn
      exact absurd h (repr_pos_ne_repr_zero hm)
    · rw [repr_eq_digitsRev hm, repr_eq_digitsRev hn] at h
      have hdata : digitsRev m = digitsRev n := congrArg String.data h
      unfold digitsRev at hdata
      have h3 : (Nat.digits 10 m).reverse = (Nat.digits 10 n).reverse :=
        map_digitChar_inj _ _
          (fun x hx => Nat.digits_lt_base (by norm_num) (List.mem_reverse.mp hx))
          (fun x hx => Nat.digits_lt_base (by norm_num) (List.mem_reverse.mp hx)) hdata
      have h4 : Nat.digits 10 m = Nat.digits 10 n := by
        have h5 := congrArg List.reverse h3
        simpa using h5
      exact Nat.digits_inj_iff.mp h4

theorem int_toString_inj_nonneg {i j : Int} (hi : 0 ≤ i) (hj : 0 ≤ j)
    (h : toString i = toString j) : i = j := by
  have hi2 : toString i = Nat.repr i.toNat := by
    rcases i with n | n
    · rfl
    · exact absurd hi (not_le.mpr (Int.negSucc_lt_zero n))
  have hj2 : toString j = Nat.repr j.toNat := by
    rcases j with n | n
    · rfl
    · exact absurd hj (not_le.mpr (Int.negSucc_lt_zero n))
  rw [hi2, hj2] at h
  have h3 := nat_repr_inj h
  rw [← Int.toNat_of_nonneg hi, ← Int.toNat_of_nonneg hj, h3]

/-- Cache keys for the same hash and quality but page numbers with
different decimal representations are distinct. -/
theorem cacheKey_ne_of_page {h : String} {p1 p2 : Int} {q : String}
    (hne : toString p1 ≠ toString p2) : cacheKey h p1 q ≠ cacheKey h p2 q := by
  intro he
  apply hne
  unfold cacheKey at he
  have hd := congrArg String.data he
  simp only [String.data_append, List.append_assoc] at hd
  have h1 := (List.append_inj hd rfl).2
  have h2 := (List.append_inj h1 rfl).2
  have hlen : (toString p1).data.length = (toString p2).data.length := by
    have h3 := congrArg List.length h2
    simp only [List.length_append] at h3
    omega
  exact String.ext (List.append_inj h2 hlen).1

/-- The chunking of `convert_pages_batch` visits exactly the request
list in order. -/
theorem batchChunks_join : ∀ l : List Int, (batchChunks l).flatten = l := by
  have H : ∀ (n : Nat) (l : List Int), l.length ≤ n → (batchChunks l).flatten = l := by
    intro n
    induction n with
    | zero =>
      intro l h
      have hl : l = [] := List.eq_nil_of_length_eq_zero (by omega)
      subst hl
      rw [batchChunks]
      rfl
    | succ n ih =>
      intro l hl
      cases l with
      | nil =>
        rw [batchChunks]
        rfl
      | cons a rest =>
        rw [batchChunks]
        simp only [List.length_cons] at hl
        rw [List.flatten_cons,
          ih (rest.drop (MAX_BATCH_SIZE - 1)) (by simp [List.length_drop]; omega)]
        rw [List.cons_append, List.take_append_drop]
  exact fun l => H l.length l le_rfl

/-- The chunked batch fold equals the flat fold over the request
list. -/
theorem convert_pages_batch_eq_foldl (env : PdfEnv) (st : ProcState) (pdf_bytes : List Nat)
    (pages : List Int) (quality : String) :
    convert_pages_batch env st pdf_bytes pages quality =
      pages.foldl (batchStep env pdf_bytes quality) ([], st) := by
  unfold convert_pages_batch
  rw [← List.foldl_flatten, batchChunks_join]

/-- One batch step either leaves the results dict alone or stores the
converted image under the processed page number. -/
theorem batchStep_fst_shape (env : PdfEnv) (pdf_bytes : List Nat) (quality : String)
    (acc : List (Int × String) × ProcState) (p : Int) :
    (batchStep env pdf_bytes quality acc p).1 = acc.1 ∨
    ∃ img, (batchStep env pdf_bytes quality acc p).1 = dictInsert acc.1 p img := by
  unfold batchStep
  rcases hc : convert_page_to_image env acc.2 pdf_bytes p quality with ⟨r, s⟩
  rcases r with _ | img
  · left
    rfl
  · dsimp only
    split
    · left
      rfl
    · right
      exact ⟨img, rfl⟩

theorem dictLookup_dictInsert_isSome {κ : Type} [DecidableEq κ]
    {d : List (κ × String)} {k : κ} {v : String} {j : κ}
    (h : (dictLookup j d).isSome) : (dictLookup j (dictInsert d k v)).isSome := by
  by_cases hjk : j = k
  · subst hjk
    rw [dictLookup_dictInsert_self]
    simp
  · rw [dictLookup_dictInsert_other hjk]
    exact h

/-- The batch fold never removes a result entry. -/
theorem batch_fold_isSome_mono (env : PdfEnv) (pdf_bytes : List Nat) (quality : String) :
    ∀ (ps : List Int) (acc : List (Int × String) × ProcState) (j : Int),
      (dictLookup j acc.1).isSome →
      (dictLookup j (ps.foldl (batchStep env pdf_bytes quality) acc).1).isSome := by
  intro ps
  induction ps with
  | nil => exact fun acc j h => h
  | cons p rest ih =>
    intro acc j h
    rw [List.foldl_cons]
    apply ih
    rcases batchStep_fst_shape env pdf_bytes quality acc p with h1 | ⟨img, h1⟩ <;> rw [h1]
    · exact h
    · exact dictLookup_dictInsert_isSome h

/-- Invariant fold lemma for C4: with the bad index `b` out of range
and every other requested index rendering a nonempty image under a key
distinct from the key of `b`, the fold maps exactly the processed valid
indices, never `b`. -/
theorem batch_fold_spec (env : PdfEnv) (pdf_bytes : List Nat) (quality : String) (b : Int)
    (hopen : env.openOk pdf_bytes = true)
    (hbbad : (env.pageCount pdf_bytes : Int) ≤ b) :
    ∀ (ps : List Int) (results : List (Int × String)) (st : ProcState),
      (∀ i ∈ ps, i = b ∨ (0 ≤ i ∧ i < (env.pageCount pdf_bytes : Int) ∧
          (∃ img, env.render pdf_bytes i.toNat (qualitySettings quality) = some img ∧
            img ≠ "") ∧
          cacheKey (env.hash pdf_bytes) i quality ≠ cacheKey (env.hash pdf_bytes) b quality)) →
      (∀ kv ∈ st.page_cache, kv.2 ≠ "") →
      dictLookup (cacheKey (env.hash pdf_bytes) b quality) st.page_cache = none →
      (∀ j v,
          dictLookup j (ps.foldl (batchStep env pdf_bytes quality) (results, st)).1 = some v →
          dictLookup j results = some v ∨ (j ∈ ps ∧ j ≠ b ∧ v ≠ "")) ∧
      (∀ i ∈ ps, i ≠ b →
          (dictLookup i (ps.foldl (batchStep env pdf_bytes quality) (results, st)).1).isSome) ∧
      (dictLookup b results = none →
          dictLookup b (ps.foldl (batchStep env pdf_bytes quality) (results, st)).1 = none) := by
  intro ps
  induction ps with
  | nil =>
    intro results st helts hval hbm
    refine ⟨?_, ?_, ?_⟩
    · intro j v h
      exact Or.inl h
    · intro i hi
      simp at hi
    · intro h
      exact h
  | cons p rest ih =>
    intro results st helts hval hbm
    rw [List.foldl_cons]
    rcases helts p (List.mem_cons_self p rest) with hpb | ⟨hp0, hplt, ⟨img, hrender, hine⟩, hkne⟩
    · subst hpb
      have hstep : batchStep env pdf_bytes quality (results, st) p = (results, st) := by
        unfold batchStep
        rw [convert_miss_out_of_range hbm hopen hbbad]
      rw [hstep]
      obtain ⟨c1, c2, c3⟩ := ih results st
        (fun i hi => helts i (List.mem_cons_of_mem _ hi)) hval hbm
      refine ⟨?_, ?_, c3⟩
      · intro j v h
        rcases c1 j v h with h2 | ⟨hj, hjb, hv⟩
        · exact Or.inl h2
        · exact Or.inr ⟨List.mem_cons_of_mem _ hj, hjb, hv⟩
      · intro i hi hib
        rcases List.mem_cons.mp hi with h2 | h2
        · exact absurd h2 hib
        · exact c2 i h2 hib
    · have hpb : p ≠ b := by omega
      obtain ⟨v, hvne, st2, hstep, hval2, hbm2⟩ :
          ∃ v, v ≠ "" ∧ ∃ st2, batchStep env pdf_bytes quality (results, st) p =
              (dictInsert results p v, st2) ∧ (∀ kv ∈ st2.page_cache, kv.2 ≠ "") ∧
              dictLookup (cacheKey (env.hash pdf_bytes) b quality) st2.page_cache = none := by
        cases hdl : dictLookup (cacheKey (env.hash pdf_bytes) p quality) st.page_cache with
        | some w =>
          have hwne : w ≠ "" := hval _ (dictLookup_eq_some_mem hdl)
          refine ⟨w, hwne, st, ?_, hval, hbm⟩
          unfold batchStep
          rw [convert_hit hdl]
          dsimp only
          rw [if_neg hwne]
        | none =>
          have hres : resolvePage (env.pageCount pdf_bytes) p = some p.toNat := by
            unfold resolvePage
            rw [if_pos ⟨hp0, hplt⟩]
          have hconv := convert_miss_render_some hdl hopen hplt hres hrender
          refine ⟨img, hine,
            ProcState.mk
              (cacheInsert st.page_cache (cacheKey (env.hash pdf_bytes) p quality) img)
              (st.renderCount + 1), ?_, ?_, ?_⟩
          · unfold batchStep
            rw [hconv]
            dsimp only
            rw [if_neg hine]
          · intro kv hkv
            rcases mem_cacheInsert hkv with h2 | h2
            · exact hval kv h2
            · rw [h2]
              exact hine
          · exact dictLookup_cacheInsert_other (Ne.symm hkne) hbm
      rw [hstep]
      obtain ⟨c1, c2, c3⟩ := ih (dictInsert results p v) st2
        (fun i hi => helts i (List.mem_cons_of_mem _ hi)) hval2 hbm2
      refine ⟨?_, ?_, ?_⟩
      · intro j v2 h
        rcases c1 j v2 h with h2 | ⟨hj, hjb, hv2⟩
        · by_cases hjp : j = p
          · subst hjp
            rw [dictLookup_dictInsert_self] at h2
            have hv2 : v = v2 := by simpa using h2
            exact Or.inr ⟨List.mem_cons_self _ _, hpb, by rw [← hv2]; exact hvne⟩
          · rw [dictLookup_dictInsert_other hjp] at h2
            exact Or.inl h2
        · exact Or.inr ⟨List.mem_cons_of_mem _ hj, hjb, hv2⟩
      · intro i hi hib
        rcases List.mem_cons.mp hi with h2 | h2
        · subst h2
          apply batch_fold_isSome_mono
          rw [dictLookup_dictInsert_self]
          simp
        · exact c2 i h2 hib
      · intro hbnone
        apply c3
        rw [dictLookup_dictInsert_other (Ne.symm hpb)]
        exact hbnone

/-- C4: a `convert_pages_batch` request in which exactly one index `b`
is out of range (>= page count) while every other requested index
renders successfully yields a results dict that maps exactly the valid
indices and omits `b`, with no effect on the other pages' results. -/
theorem batch_out_of_range_page_omitted (env : PdfEnv) (st : ProcState) (pdf_bytes : List Nat)
    (pages : List Int) (b : Int) (quality : String)
    (hopen : env.openOk pdf_bytes = true)
    (hval : ∀ kv ∈ st.page_cache, kv.2 ≠ "")
    (hbmiss : dictLookup (cacheKey (env.hash pdf_bytes) b quality) st.page_cache = none)
    (hbbad : (env.pageCount pdf_bytes : Int) ≤ b)
    (hothers : ∀ i ∈ pages, i ≠ b → 0 ≤ i ∧ i < (env.pageCount pdf_bytes : Int) ∧
        ∃ img, env.render pdf_bytes i.toNat (qualitySettings quality) = some img ∧ img ≠ "") :
    dictLookup b (convert_pages_batch env st pdf_bytes pages quality).1 = none ∧
    (∀ i ∈ pages, i ≠ b →
        (dictLookup i (convert_pages_batch env st pdf_bytes pages quality).1).isSome) ∧
    (∀ j v, dictLookup j (convert_pages_batch env st pdf_bytes pages quality).1 = some v →
        j ∈ pages ∧ j ≠ b ∧ v ≠ "") := by
  rw [convert_pages_batch_eq_foldl]
  have helts : ∀ i ∈ pages, i = b ∨ (0 ≤ i ∧ i < (env.pageCount pdf_bytes : Int) ∧
      (∃ img, env.render pdf_bytes i.toNat (qualitySettings quality) = some img ∧ img ≠ "") ∧
      cacheKey (env.hash pdf_bytes) i quality ≠ cacheKey (env.hash pdf_bytes) b quality) := by
    intro i hi
    by_cases hib : i = b
    · exact Or.inl hib
    · right
      obtain ⟨h1, h2, h3⟩ := hothers i hi hib
      refine ⟨h1, h2, h3, ?_⟩
      apply cacheKey_ne_of_page
      intro hts
      exact hib (int_toString_inj_nonneg h1 (le_trans (Int.natCast_nonneg _) hbbad) hts)
  obtain ⟨c1, c2, c3⟩ :=
    batch_fold_spec env pdf_bytes quality b hopen hbbad pages [] st helts hval hbmiss
  refine ⟨c3 rfl, c2, ?_⟩
  intro j v h
  rcases c1 j v h with h2 | hgood
  · simp [dictLookup] at h2
  · exact hgood

/-- Witness for C4 at a concrete input: pages [0, 5, 1] of the two-page
witness document, with index 5 out of range. -/
theorem batch_out_of_range_page_omitted_witness :
    dictLookup 5 (convert_pages_batch envW freshProc [1] [0, 5, 1] "medium").1 = none ∧
    (∀ i ∈ ([0, 5, 1] : List Int), i ≠ 5 →
        (dictLookup i (convert_pages_batch envW freshProc [1] [0, 5, 1] "medium").1).isSome) ∧
    (∀ j v, dictLookup j (convert_pages_batch envW freshProc [1] [0, 5, 1] "medium").1 = some v →
        j ∈ ([0, 5, 1] : List Int) ∧ j ≠ 5 ∧ v ≠ "") :=
  batch_out_of_range_page_omitted envW freshProc [1] [0, 5, 1] 5 "medium"
    rfl (by decide) rfl (by decide)
    (by
      intro i hi hib
      fin_cases hi
      · exact ⟨by decide, by decide, "img0at150", rfl, by decide⟩
      · exact absurd rfl hib
      · exact ⟨by decide, by decide, "img1at150", rfl, by decide⟩)
